import Mathlib

/-!
# The generation pipeline of gpuPlotGenerator

A shallow embedding of `CommandGenerate::execute` (src/CommandGenerate.cpp): the
compute workers (one per device), the writer workers (`buffersNb` of them) and the
orchestrator's progress loop, as a labelled transition system over an explicit state.

Every block of the source that runs under the shared mutex is one atomic step.  The
work done outside the mutex is split at the calls that touch shared objects: one
step per `computePlots` call, one per `readPlots` call, one per plot of the
transposition loop (the copy of its scoops and the flush that may follow).  A thread
that waits on the condition variable moves when its predicate holds; a call that may
throw has a step for each outcome.

Objects held by `std::shared_ptr` are addressed by their index: devices by
`Fin nD`, contexts by `Fin nC`, writer workers by `Fin nW`.  The configuration
objects are immutable and are kept in the job description.

Nonces and counters are 64-bit in the program; the model counts in natural numbers,
which agrees with the program as long as `start_nonce + nonces_number < 2^64` for
every file.  Byte buffers are functions from offsets to bytes, so a copy never runs
past the end of a buffer in the model.
-/

set_option autoImplicit false

namespace GpuPlotGenerator

/-! ## Constants and byte buffers -/

/-- Modelled from the spec: constants.h is absent; the on-disk size of one nonce. -/
def PLOT_SIZE : Nat := 262144

/-- Modelled from the spec: constants.h is absent; the size of one scoop
(`PLOT_SIZE / 4096`). -/
def SCOOP_SIZE : Nat := 64

/-- A byte array, given by the byte stored at each offset. -/
abbrev Buffer := Nat → Nat

/-- The call `std::copy_n(src + srcOff, n, dst + dstOff)`. -/
def copy_n (src : Buffer) (srcOff n : Nat) (dst : Buffer) (dstOff : Nat) : Buffer :=
  fun p => if dstOff ≤ p ∧ p < dstOff + n then src (srcOff + (p - dstOff)) else dst p

/-! ## Data model -/

/-- The fields of a plots file name `<address>_<startNonce>_<noncesNumber>_<staggerSize>`. -/
structure GenerationConfig where
  address : Nat
  startNonce : Nat
  noncesNumber : Nat
  staggerSize : Nat
deriving DecidableEq

/-- The output file: the number of bytes appended so far and their values. -/
structure PlotsFile where
  size : Nat
  data : Buffer

/-- Modelled from the spec: PlotsFile.h is absent; `write` appends `n` bytes of the
buffer at the current end of the file. -/
def PlotsFile.write (f : PlotsFile) (buffer : Buffer) (n : Nat) : PlotsFile :=
  { size := f.size + n
    data := fun p => if f.size ≤ p ∧ p < f.size + n then buffer (p - f.size) else f.data p }

/-- The mutable part of a `GenerationContext`. -/
structure GenerationContext where
  noncesDistributed : Nat
  noncesWritten : Nat
  available : Bool
  plotsFile : PlotsFile

/-- Modelled from the spec: GenerationContext.h is absent;
`pending = nonces_distributed − nonces_written`. -/
def GenerationContext.getPendingNonces (c : GenerationContext) : Nat :=
  c.noncesDistributed - c.noncesWritten

/-- Modelled from the spec: GenerationContext.h is absent.  The value is handed to
`computePlots` as the first nonce of the batch, and a file holds the nonces from its
`start_nonce` on, so it is the absolute nonce `start_nonce + nonces_distributed`. -/
def GenerationContext.getCurrentDistributedNonce (cfg : GenerationConfig)
    (c : GenerationContext) : Nat :=
  cfg.startNonce + c.noncesDistributed

/-- Modelled from the spec: GenerationContext.h is absent; the absolute nonce
`start_nonce + nonces_written`, compared with the start nonce of a pending task. -/
def GenerationContext.getCurrentWrittenNonce (cfg : GenerationConfig)
    (c : GenerationContext) : Nat :=
  cfg.startNonce + c.noncesWritten

/-- Modelled from the spec: GenerationContext.h is absent; returns
`min(preferred, nonces_number − nonces_distributed)` and advances
`nonces_distributed` by that amount. -/
def GenerationContext.requestWorkSize (cfg : GenerationConfig) (c : GenerationContext)
    (maxWorkSize : Nat) : Nat × GenerationContext :=
  let workSize := min maxWorkSize (cfg.noncesNumber - c.noncesDistributed)
  (workSize, { c with noncesDistributed := c.noncesDistributed + workSize })

/-- Modelled from the spec: GenerationContext.h is absent; advances `nonces_written`. -/
def GenerationContext.appendWorkSize (c : GenerationContext) (workSize : Nat) :
    GenerationContext :=
  { c with noncesWritten := c.noncesWritten + workSize }

/-- The mutable part of a `GenerationDevice`: the flag and the device memory. -/
structure GenerationDevice where
  available : Bool
  buffer : Buffer

/-- Modelled from the spec: GenerationDevice.h and the kernels are absent; the device
memory receives `workSize` consecutive plots of `address`, plot `k` of the batch at
plot index `k`.  `plot address nonce` is the plot of one nonce. -/
def GenerationDevice.computePlots (plot : Nat → Nat → Buffer) (dev : GenerationDevice)
    (address startNonce workSize : Nat) : GenerationDevice :=
  { dev with
    buffer := fun p =>
      if p < workSize * PLOT_SIZE then plot address (startNonce + p / PLOT_SIZE) (p % PLOT_SIZE)
      else dev.buffer p }

/-- Modelled from the spec: GenerationDevice.h is absent; copies `count × PLOT_SIZE`
bytes of the device memory, from plot index `nonceOffset` on, into `buffer`. -/
def GenerationDevice.readPlots (dev : GenerationDevice) (buffer : Buffer)
    (nonceOffset count : Nat) : Buffer :=
  copy_n dev.buffer (nonceOffset * PLOT_SIZE) (count * PLOT_SIZE) buffer 0

/-- The tuple `PendingTask` of line 158. -/
structure PendingTask (nD nC : Nat) where
  device : Fin nD
  context : Fin nC
  startNonce : Nat
  workSize : Nat
deriving DecidableEq

/-- What the job is made of: the global work size of each device, the configuration of
each plots file, the plot function of the kernel and the content of fresh memory. -/
structure Job (nD nC : Nat) where
  globalWorkSize : Fin nD → Nat
  config : Fin nC → GenerationConfig
  plot : Nat → Nat → Buffer
  fresh : Buffer

/-- Where a compute worker stands in its loop (lines 166-222). -/
inductive GenerationThread (nC : Nat) where
  | waiting
  | computing (context : Fin nC) (startNonce workSize : Nat)
  | exited
deriving DecidableEq

/-- Where a writer worker stands in its loop (lines 238-320). -/
inductive WriterPc (nD nC : Nat) where
  | waiting
  | draining (device : Fin nD) (context : Fin nC) (workSize i : Nat)
  | transposing (context : Fin nC) (workSize i : Nat)
  | exited
deriving DecidableEq

/-- A writer worker: its place in the loop and its three private buffers
(lines 234-236). -/
structure WritingThread (nD nC : Nat) where
  pc : WriterPc nD nC
  bufferPlots : Buffer
  bufferDevice : Buffer
  bufferStagger : Buffer

/-- Where the orchestrator stands: in the progress loop (lines 332-365), past it and
joining the workers at the end of the `try` block, or returned from `execute`. -/
inductive Orchestrator where
  | looping
  | leaving (code : Int)
  | returned (code : Int)
deriving DecidableEq

/-- The shared state of `execute` together with the state of every thread.
`history` is a history variable: the tasks claimed by writer workers, oldest first;
no step reads it. -/
structure State (nD nC nW : Nat) where
  error : Bool
  generationContexts : List (Fin nC)
  pendingTasks : List (PendingTask nD nC)
  contexts : Fin nC → GenerationContext
  devices : Fin nD → GenerationDevice
  generationThreads : Fin nD → GenerationThread nC
  writingThreads : Fin nW → WritingThread nD nC
  orchestrator : Orchestrator
  history : List (PendingTask nD nC)

section Pipeline

variable {nD nC nW : Nat}

/-- The state when the workers are started (lines 127-160): every context is in the
list and no task is queued.  Modelled from the spec: the constructors of
GenerationContext, GenerationDevice and PlotsFile are absent; nothing is distributed or
written, every flag is set, the files are empty and the buffers hold fresh memory. -/
def initialState (job : Job nD nC) : State nD nC nW :=
  { error := false
    generationContexts := List.finRange nC
    pendingTasks := []
    contexts := fun _ =>
      { noncesDistributed := 0, noncesWritten := 0, available := true
        plotsFile := { size := 0, data := job.fresh } }
    devices := fun _ => { available := true, buffer := job.fresh }
    generationThreads := fun _ => GenerationThread.waiting
    writingThreads := fun _ =>
      { pc := WriterPc.waiting, bufferPlots := job.fresh, bufferDevice := job.fresh
        bufferStagger := job.fresh }
    orchestrator := Orchestrator.looping
    history := [] }

/-! ## The compute worker -/

/-- The algorithm `std::min_element`: the first element that no other element is
smaller than, by the comparator. -/
def min_element {α : Type} (comp : α → α → Bool) : List α → Option α
  | [] => none
  | x :: xs => some (xs.foldl (fun smallest y => if comp y smallest then y else smallest) x)

/-- The comparator of lines 188-194. -/
def compareContexts (job : Job nD nC) (s : State nD nC nW) (c1 c2 : Fin nC) : Bool :=
  if (s.contexts c1).getPendingNonces = (s.contexts c2).getPendingNonces then
    decide ((s.contexts c1).getCurrentDistributedNonce (job.config c1)
      < (s.contexts c2).getCurrentDistributedNonce (job.config c2))
  else
    decide ((s.contexts c1).getPendingNonces < (s.contexts c2).getPendingNonces)

/-- The context chosen at lines 185-197. -/
def selectContext (job : Job nD nC) (s : State nD nC nW) : Option (Fin nC) :=
  min_element (compareContexts job s) s.generationContexts

/-- Lines 171-206: the compute worker of device `d` passes its wait and either leaves
its loop or takes a batch of the selected context.  `none` when it stays blocked. -/
def computeAcquire (job : Job nD nC) (s : State nD nC nW) (d : Fin nD) :
    Option (State nD nC nW) :=
  match s.generationThreads d with
  | GenerationThread.waiting =>
    if s.error ∨ s.generationContexts.isEmpty then
      some { s with generationThreads := Function.update s.generationThreads d GenerationThread.exited }
    else if (s.devices d).available then
      match selectContext job s with
      | none => none
      | some c =>
        let startNonce := (s.contexts c).getCurrentDistributedNonce (job.config c)
        let r := (s.contexts c).requestWorkSize (job.config c) (job.globalWorkSize d)
        some { s with
          contexts := Function.update s.contexts c r.2
          generationContexts :=
            if r.2.noncesDistributed = (job.config c).noncesNumber then s.generationContexts.erase c
            else s.generationContexts
          devices := Function.update s.devices d { s.devices d with available := false }
          generationThreads :=
            Function.update s.generationThreads d (GenerationThread.computing c startNonce r.1) }
    else none
  | _ => none

/-- Lines 208-221: `computePlots` returns and the task is queued (`ok`), or it throws
and the worker records the error, clears the queue and leaves (`ok = false`). -/
def computeFinish (job : Job nD nC) (s : State nD nC nW) (d : Fin nD) (ok : Bool) :
    Option (State nD nC nW) :=
  match s.generationThreads d with
  | GenerationThread.computing c startNonce workSize =>
    if ok then
      some { s with
        devices := Function.update s.devices d
          ((s.devices d).computePlots job.plot (job.config c).address startNonce workSize)
        pendingTasks := s.pendingTasks ++ [⟨d, c, startNonce, workSize⟩]
        generationThreads := Function.update s.generationThreads d GenerationThread.waiting }
    else
      some { s with
        error := true
        pendingTasks := []
        generationThreads := Function.update s.generationThreads d GenerationThread.exited }
  | _ => none

/-! ## The writer worker -/

/-- The predicate of lines 254-257. -/
def taskReady (job : Job nD nC) (s : State nD nC nW) (t : PendingTask nD nC) : Bool :=
  (s.contexts t.context).available
    && (s.contexts t.context).getCurrentWrittenNonce (job.config t.context) == t.startNonce

/-- Lines 243-273: the writer worker `w` passes its wait and either leaves its loop or
claims the first ready task.  `none` when it stays blocked. -/
def writerClaim (job : Job nD nC) (s : State nD nC nW) (w : Fin nW) :
    Option (State nD nC nW) :=
  match (s.writingThreads w).pc with
  | WriterPc.waiting =>
    if s.error ∨ (s.generationContexts.isEmpty ∧ s.pendingTasks.isEmpty) then
      some { s with
        writingThreads := Function.update s.writingThreads w
          { s.writingThreads w with pc := WriterPc.exited } }
    else
      match s.pendingTasks.find? (taskReady job s) with
      | none => none
      | some t =>
        some { s with
          pendingTasks := s.pendingTasks.eraseP (taskReady job s)
          contexts := Function.update s.contexts t.context
            { s.contexts t.context with available := false }
          writingThreads := Function.update s.writingThreads w
            { s.writingThreads w with pc := WriterPc.draining t.device t.context t.workSize 0 }
          history := s.history ++ [t] }
  | _ => none

/-- The catch block of lines 312-319, for the writer worker `w`: the error is recorded,
the queue is cleared and the worker leaves its loop; the context it holds stays
unavailable. -/
def writerFail (s : State nD nC nW) (w : Fin nW) (th : WritingThread nD nC) :
    State nD nC nW :=
  { s with
    error := true
    pendingTasks := []
    writingThreads := Function.update s.writingThreads w { th with pc := WriterPc.exited } }

/-- One iteration of the loop of lines 277-280: plot `i` of the device memory is read
into the scratch buffer and copied into the drain buffer (`ok`), or `readPlots`
throws (`ok = false`). -/
def writerRead (s : State nD nC nW) (w : Fin nW) (ok : Bool) : Option (State nD nC nW) :=
  match (s.writingThreads w).pc with
  | WriterPc.draining d c workSize i =>
    if i < workSize then
      if ok then
        let bufferPlots := (s.devices d).readPlots (s.writingThreads w).bufferPlots i 1
        some { s with
          writingThreads := Function.update s.writingThreads w
            { s.writingThreads w with
              pc := WriterPc.draining d c workSize (i + 1)
              bufferPlots := bufferPlots
              bufferDevice :=
                copy_n bufferPlots 0 PLOT_SIZE (s.writingThreads w).bufferDevice (i * PLOT_SIZE) } }
      else some (writerFail s w (s.writingThreads w))
    else none
  | _ => none

/-- Lines 282-286: the drain is over, the device is made available again. -/
def writerRelease (s : State nD nC nW) (w : Fin nW) : Option (State nD nC nW) :=
  match (s.writingThreads w).pc with
  | WriterPc.draining d c workSize i =>
    if i < workSize then none
    else
      some { s with
        devices := Function.update s.devices d { s.devices d with available := true }
        writingThreads := Function.update s.writingThreads w
          { s.writingThreads w with pc := WriterPc.transposing c workSize 0 } }
  | _ => none

/-- The loop of lines 292-294 from byte offset `j` of the plot on; `fuel` bounds the
number of iterations left. -/
def transposeScoops (bufferDevice : Buffer) (bufferDeviceOffset staggerNonce staggerSize : Nat) :
    Nat → Nat → Buffer → Buffer
  | 0, _, bufferStagger => bufferStagger
  | fuel + 1, j, bufferStagger =>
    if j < PLOT_SIZE then
      transposeScoops bufferDevice bufferDeviceOffset staggerNonce staggerSize fuel (j + SCOOP_SIZE)
        (copy_n bufferDevice (bufferDeviceOffset + j) SCOOP_SIZE bufferStagger
          (staggerNonce * SCOOP_SIZE + j * staggerSize))
    else bufferStagger

/-- Lines 291-294 for plot `i` of a batch: the stagger buffer after the scoops of the
plot are copied into it. -/
@[irreducible]
def transposePlot (bufferDevice : Buffer) (noncesWritten i staggerSize : Nat)
    (bufferStagger : Buffer) : Buffer :=
  transposeScoops bufferDevice (i * PLOT_SIZE) ((noncesWritten + i) % staggerSize) staggerSize
    (PLOT_SIZE / SCOOP_SIZE) 0 bufferStagger

/-- One iteration of the loop of lines 290-299: the scoops of plot `i` are copied into
the stagger buffer, and when the plot ends a stagger the buffer is written to the file
(`ok`) or the write throws (`ok = false`). -/
def writerTranspose (job : Job nD nC) (s : State nD nC nW) (w : Fin nW) (ok : Bool) :
    Option (State nD nC nW) :=
  match (s.writingThreads w).pc with
  | WriterPc.transposing c workSize i =>
    if i < workSize then
      let staggerSize := (job.config c).staggerSize
      let staggerNonce := ((s.contexts c).noncesWritten + i) % staggerSize
      let th : WritingThread nD nC :=
        { s.writingThreads w with
          pc := WriterPc.transposing c workSize (i + 1)
          bufferStagger :=
            transposePlot (s.writingThreads w).bufferDevice (s.contexts c).noncesWritten i
              staggerSize (s.writingThreads w).bufferStagger }
      if staggerNonce = staggerSize - 1 then
        if ok then
          some { s with
            contexts := Function.update s.contexts c
              { s.contexts c with
                plotsFile := (s.contexts c).plotsFile.write th.bufferStagger (PLOT_SIZE * staggerSize) }
            writingThreads := Function.update s.writingThreads w th }
        else some (writerFail s w th)
      else some { s with writingThreads := Function.update s.writingThreads w th }
    else none
  | _ => none

/-- Lines 301-311: the batch is over, the written nonces are counted and the context
is made available again. -/
def writerAppend (s : State nD nC nW) (w : Fin nW) : Option (State nD nC nW) :=
  match (s.writingThreads w).pc with
  | WriterPc.transposing c workSize i =>
    if i < workSize then none
    else
      some { s with
        contexts := Function.update s.contexts c
          { (s.contexts c).appendWorkSize workSize with available := true }
        writingThreads := Function.update s.writingThreads w
          { s.writingThreads w with pc := WriterPc.waiting } }
  | _ => none

/-! ## The orchestrator -/

/-- One iteration of the loop of lines 332-365: the recorded error is thrown again
(`execute` will return -1), or the loop is left (`execute` will return 0), or the
progress is printed and the loop goes on. -/
def orchestratorCheck (s : State nD nC nW) : Option (State nD nC nW) :=
  match s.orchestrator with
  | Orchestrator.looping =>
    if s.error then some { s with orchestrator := Orchestrator.leaving (-1) }
    else if s.generationContexts.isEmpty ∧ s.pendingTasks.isEmpty then
      some { s with orchestrator := Orchestrator.leaving 0 }
    else some s
  | _ => none

/-- Every worker thread has left its loop. -/
def allExited (s : State nD nC nW) : Bool :=
  (List.finRange nD).all (fun d => decide (s.generationThreads d = GenerationThread.exited))
    && (List.finRange nW).all (fun w => decide ((s.writingThreads w).pc = WriterPc.exited))

/-- The end of the `try` block: the thread vectors are destroyed, which joins every
worker (lines 223-226 and 321-324), and `execute` returns (lines 373-383). -/
def orchestratorJoin (s : State nD nC nW) : Option (State nD nC nW) :=
  match s.orchestrator with
  | Orchestrator.leaving code =>
    if allExited s then some { s with orchestrator := Orchestrator.returned code } else none
  | _ => none

/-! ## Runs -/

/-- The steps of the pipeline: which thread moves, and for a call that may throw,
whether it succeeds. -/
inductive Label (nD nW : Nat) where
  | computeAcquire (d : Fin nD)
  | computeFinish (d : Fin nD) (ok : Bool)
  | writerClaim (w : Fin nW)
  | writerRead (w : Fin nW) (ok : Bool)
  | writerRelease (w : Fin nW)
  | writerTranspose (w : Fin nW) (ok : Bool)
  | writerAppend (w : Fin nW)
  | orchestratorCheck
  | orchestratorJoin
deriving DecidableEq

/-- One step of the pipeline; `none` when the thread of the label cannot move. -/
def step (job : Job nD nC) (s : State nD nC nW) : Label nD nW → Option (State nD nC nW)
  | Label.computeAcquire d => computeAcquire job s d
  | Label.computeFinish d ok => computeFinish job s d ok
  | Label.writerClaim w => writerClaim job s w
  | Label.writerRead w ok => writerRead s w ok
  | Label.writerRelease w => writerRelease s w
  | Label.writerTranspose w ok => writerTranspose job s w ok
  | Label.writerAppend w => writerAppend s w
  | Label.orchestratorCheck => orchestratorCheck s
  | Label.orchestratorJoin => orchestratorJoin s

/-- The state after a schedule, `none` when one of its steps cannot be taken. -/
def exec (job : Job nD nC) : State nD nC nW → List (Label nD nW) → Option (State nD nC nW)
  | s, [] => some s
  | s, l :: ls => (step job s l).bind (fun s' => exec job s' ls)

/-- The states of the runs of the pipeline. -/
inductive Reachable (job : Job nD nC) : State nD nC nW → Prop where
  | init : Reachable job (initialState job)
  | step {s s' : State nD nC nW} (l : Label nD nW) :
      Reachable job s → step job s l = some s' → Reachable job s'

end Pipeline

/-! ## Predicates, invariants and concrete runs -/

section Definitions

variable {nD nC nW : Nat}

/-- A `computePlots` call of the compute worker is in flight. -/
@[simp]
def GenerationThread.inFlight : GenerationThread nC → Bool
  | GenerationThread.computing _ _ _ => true
  | _ => false

/-- The writer worker is reading the memory of device `d` (lines 276-286). -/
@[simp]
def WriterPc.drains (pc : WriterPc nD nC) (d : Fin nD) : Bool :=
  match pc with
  | WriterPc.draining d' _ _ _ => decide (d' = d)
  | _ => false

/-- The memory of a device has one owner at a time: the flag of the device, a
`computePlots` call in flight, a task in the queue, or a writer worker reading it; and
it has an owner as long as no error is recorded. -/
structure DeviceInv (s : State nD nC nW) : Prop where
  avail : ∀ d, (s.devices d).available = true →
    (s.generationThreads d).inFlight = false ∧ (∀ t ∈ s.pendingTasks, t.device ≠ d) ∧
      ∀ w, (s.writingThreads w).pc.drains d = false
  comp : ∀ d, (s.generationThreads d).inFlight = true →
    (∀ t ∈ s.pendingTasks, t.device ≠ d) ∧ ∀ w, (s.writingThreads w).pc.drains d = false
  nodup : (s.pendingTasks.map (fun t => t.device)).Nodup
  queued : ∀ t ∈ s.pendingTasks, ∀ w, (s.writingThreads w).pc.drains t.device = false
  drain : ∀ d w w', (s.writingThreads w).pc.drains d = true →
    (s.writingThreads w').pc.drains d = true → w = w'
  busy : s.error = false → ∀ d, (s.devices d).available = false →
    (s.generationThreads d).inFlight = true ∨ (∃ t ∈ s.pendingTasks, t.device = d) ∨
      ∃ w, (s.writingThreads w).pc.drains d = true

/-- The context and the size of the batch the writer worker holds, from the claim of
the task (line 272) to the end of the batch (line 309). -/
@[simp]
def WriterPc.batch : WriterPc nD nC → Option (Fin nC × Nat)
  | WriterPc.draining _ c workSize _ => some (c, workSize)
  | WriterPc.transposing c workSize _ => some (c, workSize)
  | _ => none

/-- The number of plots of its batch the writer worker has transposed. -/
@[simp]
def WriterPc.done : WriterPc nD nC → Nat
  | WriterPc.transposing _ _ i => i
  | _ => 0

/-- The flag of a context is cleared while a writer worker holds it, at most one writer
worker holds it, and the worker has transposed no more plots than its batch has. -/
structure HoldInv (s : State nD nC nW) : Prop where
  held : ∀ w c ws, (s.writingThreads w).pc.batch = some (c, ws) →
    (s.contexts c).available = false
  uniq : ∀ w w' c ws ws', (s.writingThreads w).pc.batch = some (c, ws) →
    (s.writingThreads w').pc.batch = some (c, ws') → w = w'
  bound : ∀ w c ws, (s.writingThreads w).pc.batch = some (c, ws) →
    (s.writingThreads w).pc.done ≤ ws

/-- As long as no error is recorded, a context whose flag is cleared is held by a
writer worker. -/
structure FreeInv (s : State nD nC nW) : Prop where
  busy : s.error = false → ∀ c, (s.contexts c).available = false →
    ∃ w ws, (s.writingThreads w).pc.batch = some (c, ws)

/-- The counters of every context are ordered, the active contexts are those with
nonces left to distribute, every batch on its way (computed, queued or held by a writer
worker) lies within the distributed nonces, and batches are not empty when the devices
take at least one nonce. -/
structure CountInv (job : Job nD nC) (s : State nD nC nW) : Prop where
  wd : ∀ c, (s.contexts c).noncesWritten ≤ (s.contexts c).noncesDistributed
  dn : ∀ c, (s.contexts c).noncesDistributed ≤ (job.config c).noncesNumber
  nodup : s.generationContexts.Nodup
  act : ∀ c, c ∈ s.generationContexts ↔
    (s.contexts c).noncesDistributed < (job.config c).noncesNumber
  comp : ∀ d c st ws, s.generationThreads d = GenerationThread.computing c st ws →
    st + ws ≤ (job.config c).startNonce + (s.contexts c).noncesDistributed
  task : ∀ t ∈ s.pendingTasks, t.startNonce + t.workSize ≤
    (job.config t.context).startNonce + (s.contexts t.context).noncesDistributed
  hold : ∀ w c ws, (s.writingThreads w).pc.batch = some (c, ws) →
    (s.contexts c).noncesWritten + ws ≤ (s.contexts c).noncesDistributed
  posComp : (∀ d, 0 < job.globalWorkSize d) → ∀ d c st ws,
    s.generationThreads d = GenerationThread.computing c st ws → 0 < ws
  posTask : (∀ d, 0 < job.globalWorkSize d) → ∀ t ∈ s.pendingTasks, 0 < t.workSize
  posHist : (∀ d, 0 < job.globalWorkSize d) → ∀ t ∈ s.history, 0 < t.workSize

/-- The size `floor(n / staggerSize) × staggerSize × PLOT_SIZE` of the staggers
completed by `n` nonces. -/
def flushedBytes (staggerSize n : Nat) : Nat := n / staggerSize * staggerSize * PLOT_SIZE

/-- The tasks of the list follow one another: the first starts at nonce `a`, each next
one starts where the one before ends, and the last ends at nonce `b`. -/
def Contiguous : Nat → List (PendingTask nD nC) → Nat → Prop
  | a, [], b => a = b
  | a, t :: l, b => t.startNonce = a ∧ Contiguous (a + t.workSize) l b

/-- The tasks of context `c` claimed by writer workers so far, oldest first. -/
def claimed (s : State nD nC nW) (c : Fin nC) : List (PendingTask nD nC) :=
  s.history.filter (fun t => decide (t.context = c))

/-- The size of the file of a context follows the nonces written and the plots
transposed by the writer worker that holds it, and the tasks claimed for the context
are contiguous from its start nonce up to its current written nonce. -/
structure WriteInv (job : Job nD nC) (s : State nD nC nW) : Prop where
  sinkFree : (∀ c, 0 < (job.config c).staggerSize) → ∀ c, (s.contexts c).available = true →
    (s.contexts c).plotsFile.size
      = flushedBytes (job.config c).staggerSize (s.contexts c).noncesWritten
  sinkHold : (∀ c, 0 < (job.config c).staggerSize) → ∀ w c ws,
    (s.writingThreads w).pc.batch = some (c, ws) →
    (s.contexts c).plotsFile.size = flushedBytes (job.config c).staggerSize
      ((s.contexts c).noncesWritten + (s.writingThreads w).pc.done)
  chainFree : ∀ c, (s.contexts c).available = true →
    Contiguous (job.config c).startNonce (claimed s c)
      ((job.config c).startNonce + (s.contexts c).noncesWritten)
  chainHold : ∀ w c ws, (s.writingThreads w).pc.batch = some (c, ws) →
    Contiguous (job.config c).startNonce (claimed s c)
      ((job.config c).startNonce + (s.contexts c).noncesWritten + ws)
  chainAny : ∀ c, ∃ b, Contiguous (job.config c).startNonce (claimed s c) b

/-- The state after a schedule, the initial state when the schedule cannot be run. -/
def stateAfter (job : Job nD nC) (ls : List (Label nD nW)) : State nD nC nW :=
  (exec job (initialState job) ls).getD (initialState job)

/-- A stand-in for the kernel in the concrete runs: every byte of a plot is tagged with
its address, its nonce and its offset, and differs from fresh memory. -/
def tagPlot (address nonce : Nat) : Buffer :=
  fun p => 1 + (address * 1000 + nonce) * PLOT_SIZE + p

/-- One device with global work size 4 and the file `1_0_8_4`. -/
def jobOneFile : Job 1 1 :=
  { globalWorkSize := fun _ => 4
    config := fun _ => ⟨1, 0, 8, 4⟩
    plot := tagPlot
    fresh := fun _ => 0 }

/-- A run of `jobOneFile` with one writer worker: the first batch is written while the
second, last batch is computed; the writer worker and the orchestrator find the context
list and the queue empty and leave before the second batch is queued. -/
def scheduleEarlyExit : List (Label 1 1) :=
  [ Label.computeAcquire 0, Label.computeFinish 0 true, Label.writerClaim 0,
    Label.writerRead 0 true, Label.writerRead 0 true, Label.writerRead 0 true,
    Label.writerRead 0 true, Label.writerRelease 0, Label.computeAcquire 0,
    Label.writerTranspose 0 true, Label.writerTranspose 0 true, Label.writerTranspose 0 true,
    Label.writerTranspose 0 true, Label.writerAppend 0, Label.writerClaim 0,
    Label.orchestratorCheck, Label.computeFinish 0 true, Label.computeAcquire 0,
    Label.orchestratorJoin ]

/-- A run of `jobOneFile` with one writer worker in which the compute of the last batch
throws after the orchestrator has left its loop. -/
def scheduleLateError : List (Label 1 1) :=
  [ Label.computeAcquire 0, Label.computeFinish 0 true, Label.writerClaim 0,
    Label.writerRead 0 true, Label.writerRead 0 true, Label.writerRead 0 true,
    Label.writerRead 0 true, Label.writerRelease 0, Label.computeAcquire 0,
    Label.writerTranspose 0 true, Label.writerTranspose 0 true, Label.writerTranspose 0 true,
    Label.writerTranspose 0 true, Label.writerAppend 0, Label.writerClaim 0,
    Label.orchestratorCheck, Label.computeFinish 0 false, Label.orchestratorJoin ]

/-- The start of a run of `jobOneFile`: the first batch is computed and queued. -/
def scheduleQueued : List (Label 1 1) :=
  [Label.computeAcquire 0, Label.computeFinish 0 true]

/-- The first batch of `jobOneFile` is claimed and read out of the device memory. -/
def scheduleDrained : List (Label 1 1) :=
  scheduleQueued ++ [Label.writerClaim 0, Label.writerRead 0 true, Label.writerRead 0 true,
    Label.writerRead 0 true, Label.writerRead 0 true, Label.writerRelease 0]

/-- The compute of the second batch of `jobOneFile` is in flight. -/
def scheduleComputing : List (Label 1 1) :=
  scheduleDrained ++ [Label.computeAcquire 0]

/-- The second batch of `jobOneFile` is queued and two plots of the first batch are
transposed. -/
def scheduleMidBatch : List (Label 1 1) :=
  scheduleComputing ++ [Label.computeFinish 0 true, Label.writerTranspose 0 true,
    Label.writerTranspose 0 true]

/-- Three plots of the first batch of `jobOneFile` are transposed. -/
def scheduleThreePlots : List (Label 1 1) :=
  scheduleMidBatch ++ [Label.writerTranspose 0 true]

/-- The first batch of `jobOneFile` written in full, the second one queued. -/
def scheduleOneBatch : List (Label 1 1) :=
  scheduleThreePlots ++ [Label.writerTranspose 0 true, Label.writerAppend 0]

/-- Both batches of `jobOneFile` written. -/
def scheduleTwoBatches : List (Label 1 1) :=
  scheduleOneBatch ++ [Label.writerClaim 0,
    Label.writerRead 0 true, Label.writerRead 0 true, Label.writerRead 0 true,
    Label.writerRead 0 true, Label.writerRelease 0,
    Label.writerTranspose 0 true, Label.writerTranspose 0 true, Label.writerTranspose 0 true,
    Label.writerTranspose 0 true, Label.writerAppend 0]

/-- One device with global work size 2 and the file `1_0_4_4`: a stagger takes two
batches. -/
def jobSplitStagger : Job 1 1 :=
  { globalWorkSize := fun _ => 2
    config := fun _ => ⟨1, 0, 4, 4⟩
    plot := tagPlot
    fresh := fun _ => 0 }

/-- A run of `jobSplitStagger` with two writer workers: worker 0 handles the batch of
nonces 0 and 1, worker 1 the batch of nonces 2 and 3, and flushes the stagger. -/
def scheduleSplitStagger : List (Label 1 2) :=
  [ Label.computeAcquire 0, Label.computeFinish 0 true, Label.writerClaim 0,
    Label.writerRead 0 true, Label.writerRead 0 true, Label.writerRelease 0,
    Label.computeAcquire 0, Label.computeFinish 0 true,
    Label.writerTranspose 0 true, Label.writerTranspose 0 true, Label.writerAppend 0,
    Label.writerClaim 1, Label.writerRead 1 true, Label.writerRead 1 true,
    Label.writerRelease 1, Label.writerTranspose 1 true, Label.writerTranspose 1 true,
    Label.writerAppend 1 ]

/-- One device with global work size 4 and the files `1_0_8_4` and `2_100_4_4`. -/
def jobTwoFiles : Job 1 2 :=
  { globalWorkSize := fun _ => 4
    config := fun c => if c = 0 then ⟨1, 0, 8, 4⟩ else ⟨2, 100, 4, 4⟩
    plot := tagPlot
    fresh := fun _ => 0 }

/-- A run of `jobTwoFiles` with one writer worker: the first batch of the first file is
computed and written. -/
def scheduleFirstBatch : List (Label 1 1) :=
  [ Label.computeAcquire 0, Label.computeFinish 0 true, Label.writerClaim 0,
    Label.writerRead 0 true, Label.writerRead 0 true, Label.writerRead 0 true,
    Label.writerRead 0 true, Label.writerRelease 0,
    Label.writerTranspose 0 true, Label.writerTranspose 0 true, Label.writerTranspose 0 true,
    Label.writerTranspose 0 true, Label.writerAppend 0 ]

end Definitions

/-! ## Theorems -/

section Theorems

variable {nD nC nW : Nat}

/-- What `find_if` and `erase` of lines 251-270 do together: the first element that
satisfies the predicate is taken out of the list. -/
theorem find_eraseP_split {α : Type} (p : α → Bool) (l : List α) (t : α)
    (h : l.find? p = some t) :
    p t = true ∧ ∃ l₁ l₂, l = l₁ ++ t :: l₂ ∧ l.eraseP p = l₁ ++ l₂ := by
  induction l with
  | nil => simp at h
  | cons x xs ih =>
    by_cases hx : p x = true
    · have hxt : x = t := by simpa [List.find?, hx] using h
      subst hxt
      exact ⟨hx, [], xs, rfl, by simp [hx]⟩
    · have h' : xs.find? p = some t := by simpa [List.find?, hx] using h
      obtain ⟨hp, l₁, l₂, h1, h2⟩ := ih h'
      exact ⟨hp, x :: l₁, l₂, by simp [h1], by simp [hx, h2]⟩

theorem computeAcquire_cases {job : Job nD nC} {s s' : State nD nC nW} {d : Fin nD}
    (hs : computeAcquire job s d = some s') :
    s.generationThreads d = GenerationThread.waiting ∧
    (((s.error = true ∨ s.generationContexts.isEmpty = true) ∧
        s' = { s with
          generationThreads := Function.update s.generationThreads d GenerationThread.exited }) ∨
      (s.error = false ∧ (s.devices d).available = true ∧
        ∃ c, selectContext job s = some c ∧
          s' = { s with
            contexts := Function.update s.contexts c
              ((s.contexts c).requestWorkSize (job.config c) (job.globalWorkSize d)).2
            generationContexts :=
              if ((s.contexts c).requestWorkSize (job.config c) (job.globalWorkSize d)).2.noncesDistributed
                  = (job.config c).noncesNumber then s.generationContexts.erase c
              else s.generationContexts
            devices := Function.update s.devices d { s.devices d with available := false }
            generationThreads := Function.update s.generationThreads d
              (GenerationThread.computing c
                ((s.contexts c).getCurrentDistributedNonce (job.config c))
                ((s.contexts c).requestWorkSize (job.config c) (job.globalWorkSize d)).1) })) := by
  unfold computeAcquire at hs
  split at hs
  · rename_i hpc
    refine ⟨hpc, ?_⟩
    split_ifs at hs with h1 h2
    · exact Or.inl ⟨h1, (Option.some.inj hs).symm⟩
    · split at hs
      · exact absurd hs (by simp)
      · rename_i c hc
        refine Or.inr ⟨?_, h2, c, hc, (Option.some.inj hs).symm⟩
        cases he : s.error
        · rfl
        · exact absurd (Or.inl he) h1
  · exact absurd hs (by simp)

theorem computeFinish_cases {job : Job nD nC} {s s' : State nD nC nW} {d : Fin nD} {ok : Bool}
    (hs : computeFinish job s d ok = some s') :
    ∃ c startNonce workSize,
      s.generationThreads d = GenerationThread.computing c startNonce workSize ∧
      ((ok = true ∧
        s' = { s with
          devices := Function.update s.devices d
            ((s.devices d).computePlots job.plot (job.config c).address startNonce workSize)
          pendingTasks := s.pendingTasks ++ [⟨d, c, startNonce, workSize⟩]
          generationThreads := Function.update s.generationThreads d GenerationThread.waiting }) ∨
      (ok = false ∧
        s' = { s with
          error := true
          pendingTasks := []
          generationThreads :=
            Function.update s.generationThreads d GenerationThread.exited })) := by
  unfold computeFinish at hs
  split at hs
  · rename_i c st ws hpc
    refine ⟨c, st, ws, hpc, ?_⟩
    split_ifs at hs with h1
    · exact Or.inl ⟨h1, (Option.some.inj hs).symm⟩
    · exact Or.inr ⟨by simpa using h1, (Option.some.inj hs).symm⟩
  · exact absurd hs (by simp)

theorem writerClaim_cases {job : Job nD nC} {s s' : State nD nC nW} {w : Fin nW}
    (hs : writerClaim job s w = some s') :
    (s.writingThreads w).pc = WriterPc.waiting ∧
    (((s.error = true ∨ (s.generationContexts.isEmpty = true ∧ s.pendingTasks.isEmpty = true)) ∧
        s' = { s with
          writingThreads := Function.update s.writingThreads w
            { s.writingThreads w with pc := WriterPc.exited } }) ∨
      (s.error = false ∧
        ∃ t, s.pendingTasks.find? (taskReady job s) = some t ∧
          s' = { s with
            pendingTasks := s.pendingTasks.eraseP (taskReady job s)
            contexts := Function.update s.contexts t.context
              { s.contexts t.context with available := false }
            writingThreads := Function.update s.writingThreads w
              { s.writingThreads w with
                pc := WriterPc.draining t.device t.context t.workSize 0 }
            history := s.history ++ [t] })) := by
  unfold writerClaim at hs
  split at hs
  · rename_i hpc
    refine ⟨hpc, ?_⟩
    split_ifs at hs with h1
    · exact Or.inl ⟨h1, (Option.some.inj hs).symm⟩
    · split at hs
      · exact absurd hs (by simp)
      · rename_i t ht
        refine Or.inr ⟨?_, t, ht, (Option.some.inj hs).symm⟩
        cases he : s.error
        · rfl
        · exact absurd (Or.inl he) h1
  · exact absurd hs (by simp)

theorem writerRead_cases {s s' : State nD nC nW} {w : Fin nW} {ok : Bool}
    (hs : writerRead s w ok = some s') :
    ∃ d c workSize i, (s.writingThreads w).pc = WriterPc.draining d c workSize i ∧ i < workSize ∧
      ((ok = true ∧
        s' = { s with
          writingThreads := Function.update s.writingThreads w
            { s.writingThreads w with
              pc := WriterPc.draining d c workSize (i + 1)
              bufferPlots := (s.devices d).readPlots (s.writingThreads w).bufferPlots i 1
              bufferDevice :=
                copy_n ((s.devices d).readPlots (s.writingThreads w).bufferPlots i 1) 0 PLOT_SIZE
                  (s.writingThreads w).bufferDevice (i * PLOT_SIZE) } }) ∨
      (ok = false ∧ s' = writerFail s w (s.writingThreads w))) := by
  unfold writerRead at hs
  split at hs
  · rename_i d c ws i hpc
    refine ⟨d, c, ws, i, hpc, ?_⟩
    split_ifs at hs with h1 h2
    · exact ⟨h1, Or.inl ⟨h2, (Option.some.inj hs).symm⟩⟩
    · exact ⟨h1, Or.inr ⟨by simpa using h2, (Option.some.inj hs).symm⟩⟩
  · exact absurd hs (by simp)

theorem writerRelease_cases {s s' : State nD nC nW} {w : Fin nW}
    (hs : writerRelease s w = some s') :
    ∃ d c workSize i, (s.writingThreads w).pc = WriterPc.draining d c workSize i ∧ ¬ i < workSize ∧
      s' = { s with
        devices := Function.update s.devices d { s.devices d with available := true }
        writingThreads := Function.update s.writingThreads w
          { s.writingThreads w with pc := WriterPc.transposing c workSize 0 } } := by
  unfold writerRelease at hs
  split at hs
  · rename_i d c ws i hpc
    refine ⟨d, c, ws, i, hpc, ?_⟩
    split_ifs at hs with h1
    exact ⟨h1, (Option.some.inj hs).symm⟩
  · exact absurd hs (by simp)

theorem writerTranspose_cases {job : Job nD nC} {s s' : State nD nC nW} {w : Fin nW} {ok : Bool}
    (hs : writerTranspose job s w ok = some s') :
    ∃ c workSize i, (s.writingThreads w).pc = WriterPc.transposing c workSize i ∧ i < workSize ∧
      ∃ th : WritingThread nD nC, th.pc = WriterPc.transposing c workSize (i + 1) ∧
        th.bufferStagger = transposePlot (s.writingThreads w).bufferDevice
          (s.contexts c).noncesWritten i (job.config c).staggerSize
          (s.writingThreads w).bufferStagger ∧
      ((((s.contexts c).noncesWritten + i) % (job.config c).staggerSize
            = (job.config c).staggerSize - 1 ∧ ok = true ∧
          s' = { s with
            contexts := Function.update s.contexts c
              { s.contexts c with
                plotsFile := (s.contexts c).plotsFile.write th.bufferStagger
                  (PLOT_SIZE * (job.config c).staggerSize) }
            writingThreads := Function.update s.writingThreads w th }) ∨
        (((s.contexts c).noncesWritten + i) % (job.config c).staggerSize
            = (job.config c).staggerSize - 1 ∧ ok = false ∧ s' = writerFail s w th) ∨
        (((s.contexts c).noncesWritten + i) % (job.config c).staggerSize
            ≠ (job.config c).staggerSize - 1 ∧
          s' = { s with writingThreads := Function.update s.writingThreads w th })) := by
  unfold writerTranspose at hs
  split at hs
  · rename_i c ws i hpc
    refine ⟨c, ws, i, hpc, ?_⟩
    by_cases h1 : i < ws
    · refine ⟨h1, { s.writingThreads w with
          pc := WriterPc.transposing c ws (i + 1)
          bufferStagger :=
            transposePlot (s.writingThreads w).bufferDevice (s.contexts c).noncesWritten i
              (job.config c).staggerSize (s.writingThreads w).bufferStagger }, rfl, rfl, ?_⟩
      simp only [h1, if_true] at hs
      by_cases h2 : ((s.contexts c).noncesWritten + i) % (job.config c).staggerSize
          = (job.config c).staggerSize - 1
      · simp only [h2, if_true] at hs
        cases ok
        · exact Or.inr (Or.inl ⟨h2, rfl, (Option.some.inj hs).symm⟩)
        · exact Or.inl ⟨h2, rfl, (Option.some.inj hs).symm⟩
      · simp only [h2, if_false] at hs
        exact Or.inr (Or.inr ⟨h2, (Option.some.inj hs).symm⟩)
    · simp only [h1, if_false] at hs
      exact absurd hs (by simp)
  · exact absurd hs (by simp)

theorem writerAppend_cases {s s' : State nD nC nW} {w : Fin nW}
    (hs : writerAppend s w = some s') :
    ∃ c workSize i, (s.writingThreads w).pc = WriterPc.transposing c workSize i ∧ ¬ i < workSize ∧
      s' = { s with
        contexts := Function.update s.contexts c
          { (s.contexts c).appendWorkSize workSize with available := true }
        writingThreads := Function.update s.writingThreads w
          { s.writingThreads w with pc := WriterPc.waiting } } := by
  unfold writerAppend at hs
  split at hs
  · rename_i c ws i hpc
    refine ⟨c, ws, i, hpc, ?_⟩
    split_ifs at hs with h1
    exact ⟨h1, (Option.some.inj hs).symm⟩
  · exact absurd hs (by simp)

theorem orchestratorCheck_cases {s s' : State nD nC nW} (hs : orchestratorCheck s = some s') :
    ∃ o, s' = { s with orchestrator := o } := by
  unfold orchestratorCheck at hs
  split at hs
  · split_ifs at hs
    · exact ⟨_, (Option.some.inj hs).symm⟩
    · exact ⟨_, (Option.some.inj hs).symm⟩
    · exact ⟨s.orchestrator, (Option.some.inj hs).symm⟩
  · exact absurd hs (by simp)

theorem orchestratorJoin_cases {s s' : State nD nC nW} (hs : orchestratorJoin s = some s') :
    ∃ o, s' = { s with orchestrator := o } := by
  unfold orchestratorJoin at hs
  split at hs
  · split_ifs at hs
    exact ⟨_, (Option.some.inj hs).symm⟩
  · exact absurd hs (by simp)

theorem deviceInv_init (job : Job nD nC) : DeviceInv (initialState job : State nD nC nW) := by
  constructor <;> simp [initialState]

theorem deviceInv_congr {s s' : State nD nC nW} (h : DeviceInv s)
    (he : s'.error = s.error)
    (hd : ∀ d, (s'.devices d).available = (s.devices d).available)
    (hg : ∀ d, (s'.generationThreads d).inFlight = (s.generationThreads d).inFlight)
    (hq : s'.pendingTasks = s.pendingTasks)
    (hw : ∀ w d, (s'.writingThreads w).pc.drains d = (s.writingThreads w).pc.drains d) :
    DeviceInv s' := by
  obtain ⟨ha, hc, hn, hqd, hdr, hb⟩ := h
  constructor <;> simp only [he, hd, hg, hq, hw] <;> assumption

theorem deviceInv_fail {s : State nD nC nW} (h : DeviceInv s)
    (gts : Fin nD → GenerationThread nC) (wts : Fin nW → WritingThread nD nC)
    (hg : ∀ d, (gts d).inFlight = true → (s.generationThreads d).inFlight = true)
    (hw : ∀ w d, (wts w).pc.drains d = true → (s.writingThreads w).pc.drains d = true) :
    DeviceInv
      { s with
        error := true
        pendingTasks := []
        generationThreads := gts
        writingThreads := wts } := by
  obtain ⟨ha, hc, hn, hq, hdr, hb⟩ := h
  refine ⟨fun d hd => ?_, fun d hd => ?_, ?_, ?_, fun d w w' h1 h2 => ?_, ?_⟩
  · dsimp only at hd ⊢
    refine ⟨?_, by simp, fun w => ?_⟩
    · cases hx : (gts d).inFlight
      · rfl
      · have := (ha d hd).1; rw [hg d hx] at this; exact absurd this (by simp)
    · cases hx : (wts w).pc.drains d
      · rfl
      · have := (ha d hd).2.2 w; rw [hw w d hx] at this; exact absurd this (by simp)
  · dsimp only at hd ⊢
    refine ⟨by simp, fun w => ?_⟩
    cases hx : (wts w).pc.drains d
    · rfl
    · have := (hc d (hg d hd)).2 w; rw [hw w d hx] at this; exact absurd this (by simp)
  · simp
  · simp
  · exact hdr d w w' (hw w d h1) (hw w' d h2)
  · intro he; simp at he

theorem deviceInv_step (job : Job nD nC) {s s' : State nD nC nW} (l : Label nD nW)
    (h : DeviceInv s) (hs : step job s l = some s') : DeviceInv s' := by
  cases l with
  | computeAcquire d =>
    obtain ⟨hpc, ⟨-, rfl⟩ | ⟨he, hav, c, -, rfl⟩⟩ := computeAcquire_cases hs
    · refine deviceInv_congr h rfl (fun _ => rfl) (fun d' => ?_) rfl (fun _ _ => rfl)
      by_cases hd : d' = d
      · subst hd; simp [hpc]
      · simp [Function.update_noteq hd]
    · obtain ⟨ha, hc, hn, hq, hdr, hb⟩ := h
      have had := ha d hav
      refine ⟨fun d' hd' => ?_, fun d' hd' => ?_, hn, hq, hdr, fun he' d' hd' => ?_⟩
      · by_cases hd : d' = d
        · subst hd; simp at hd'
        · simp only [Function.update_noteq hd] at hd' ⊢
          exact ha d' hd'
      · by_cases hd : d' = d
        · subst hd; exact had.2
        · simp only [Function.update_noteq hd] at hd' ⊢
          exact hc d' hd'
      · by_cases hd : d' = d
        · subst hd; left; simp
        · simp only [Function.update_noteq hd] at hd' ⊢
          exact hb he' d' hd'
  | computeFinish d ok =>
    obtain ⟨c, st, ws, hpc, ⟨-, rfl⟩ | ⟨-, rfl⟩⟩ := computeFinish_cases hs
    · obtain ⟨ha, hc, hn, hq, hdr, hb⟩ := h
      have hcd := hc d (by simp [hpc])
      have hnav : (s.devices d).available = false := by
        cases hx : (s.devices d).available
        · rfl
        · have := (ha d hx).1; simp [hpc] at this
      refine ⟨fun d' hd' => ?_, fun d' hd' => ?_, ?_, fun t ht w => ?_, hdr, fun he' d' hd' => ?_⟩
      · by_cases hd : d' = d
        · subst hd
          simp only [Function.update_same, GenerationDevice.computePlots] at hd'
          rw [hnav] at hd'; exact absurd hd' (by simp)
        · simp only [Function.update_noteq hd] at hd' ⊢
          obtain ⟨h1, h2, h3⟩ := ha d' hd'
          refine ⟨h1, fun t ht => ?_, h3⟩
          rcases List.mem_append.1 ht with ht | ht
          · exact h2 t ht
          · simp only [List.mem_singleton] at ht; subst ht; exact fun e => hd e.symm
      · by_cases hd : d' = d
        · subst hd; simp at hd'
        · simp only [Function.update_noteq hd] at hd' ⊢
          obtain ⟨h2, h3⟩ := hc d' hd'
          refine ⟨fun t ht => ?_, h3⟩
          rcases List.mem_append.1 ht with ht | ht
          · exact h2 t ht
          · simp only [List.mem_singleton] at ht; subst ht; exact fun e => hd e.symm
      · simp only [List.map_append, List.map_cons, List.map_nil]
        refine List.Nodup.append hn (List.nodup_singleton _) ?_
        intro a ha1 ha2
        obtain ⟨t, ht, rfl⟩ := List.mem_map.1 ha1
        exact hcd.1 t ht (List.mem_singleton.1 ha2)
      · rcases List.mem_append.1 ht with ht | ht
        · exact hq t ht w
        · simp only [List.mem_singleton] at ht; subst ht; exact hcd.2 w
      · by_cases hd : d' = d
        · subst hd; right; left
          exact ⟨_, List.mem_append.2 (Or.inr (List.mem_singleton.2 rfl)), rfl⟩
        · simp only [Function.update_noteq hd] at hd' ⊢
          rcases hb he' d' hd' with h1 | ⟨t, ht, h2⟩ | h3
          · exact Or.inl h1
          · exact Or.inr (Or.inl ⟨t, List.mem_append.2 (Or.inl ht), h2⟩)
          · exact Or.inr (Or.inr h3)
    · refine deviceInv_fail h _ _ (fun d' hd' => ?_) (fun _ _ hx => hx)
      by_cases hd : d' = d
      · subst hd; simp at hd'
      · simpa [Function.update_noteq hd] using hd'
  | writerClaim w =>
    obtain ⟨hpc, ⟨-, rfl⟩ | ⟨he, t, ht, rfl⟩⟩ := writerClaim_cases hs
    · refine deviceInv_congr h rfl (fun _ => rfl) (fun _ => rfl) rfl (fun w' d' => ?_)
      by_cases hw : w' = w
      · subst hw; simp [hpc]
      · simp [Function.update_noteq hw]
    · obtain ⟨-, l₁, l₂, hl, hl'⟩ := find_eraseP_split _ _ _ ht
      obtain ⟨ha, hc, hn, hq, hdr, hb⟩ := h
      have hsub : ∀ x, x ∈ l₁ ++ l₂ → x ∈ s.pendingTasks := by
        intro x hx; rw [hl]
        rcases List.mem_append.1 hx with hx | hx
        · exact List.mem_append.2 (Or.inl hx)
        · exact List.mem_append.2 (Or.inr (List.mem_cons_of_mem _ hx))
      have htm : t ∈ s.pendingTasks := by rw [hl]; simp
      have hnd : ∀ x, x ∈ l₁ ++ l₂ → x.device ≠ t.device := by
        rw [hl] at hn
        simp only [List.map_append, List.map_cons] at hn
        have hn' := List.nodup_middle.1 hn
        obtain ⟨hnot, -⟩ := List.nodup_cons.1 hn'
        intro x hx e
        apply hnot
        rw [← List.map_append, ← e]
        exact List.mem_map_of_mem _ hx
      simp only [hl']
      refine ⟨fun d' hd' => ?_, fun d' hd' => ?_, ?_, fun x hx w' => ?_,
        fun d' w1 w2 h1 h2 => ?_, fun he' d' hd' => ?_⟩
      · obtain ⟨h1, h2, h3⟩ := ha d' hd'
        refine ⟨h1, fun x hx => h2 x (hsub x hx), fun w' => ?_⟩
        by_cases hw : w' = w
        · subst hw
          simp only [Function.update_same, WriterPc.drains, decide_eq_false_iff_not]
          exact h2 t htm
        · simp only [Function.update_noteq hw]; exact h3 w'
      · obtain ⟨h2, h3⟩ := hc d' hd'
        refine ⟨fun x hx => h2 x (hsub x hx), fun w' => ?_⟩
        by_cases hw : w' = w
        · subst hw
          simp only [Function.update_same, WriterPc.drains, decide_eq_false_iff_not]
          exact h2 t htm
        · simp only [Function.update_noteq hw]; exact h3 w'
      · rw [hl] at hn
        simp only [List.map_append, List.map_cons] at hn ⊢
        exact (List.nodup_cons.1 (List.nodup_middle.1 hn)).2
      · by_cases hw : w' = w
        · subst hw
          simp only [Function.update_same, WriterPc.drains, decide_eq_false_iff_not]
          exact fun e => hnd x hx e.symm
        · simp only [Function.update_noteq hw]; exact hq x (hsub x hx) w'
      · by_cases hw1 : w1 = w <;> by_cases hw2 : w2 = w
        · rw [hw1, hw2]
        · subst hw1
          simp only [Function.update_same, WriterPc.drains, decide_eq_true_eq] at h1
          simp only [Function.update_noteq hw2] at h2
          subst h1
          have := hq t htm w2; rw [h2] at this; exact absurd this (by simp)
        · subst hw2
          simp only [Function.update_same, WriterPc.drains, decide_eq_true_eq] at h2
          simp only [Function.update_noteq hw1] at h1
          subst h2
          have := hq t htm w1; rw [h1] at this; exact absurd this (by simp)
        · simp only [Function.update_noteq hw1] at h1
          simp only [Function.update_noteq hw2] at h2
          exact hdr d' w1 w2 h1 h2
      · rcases hb he' d' hd' with h1 | ⟨x, hx, h2⟩ | ⟨w', h3⟩
        · exact Or.inl h1
        · by_cases hxt : x = t
          · subst hxt
            refine Or.inr (Or.inr ⟨w, ?_⟩)
            simp only [Function.update_same, WriterPc.drains, decide_eq_true_eq]; exact h2
          · refine Or.inr (Or.inl ⟨x, ?_, h2⟩)
            rw [hl] at hx
            rcases List.mem_append.1 hx with hx | hx
            · exact List.mem_append.2 (Or.inl hx)
            · rcases List.mem_cons.1 hx with hx | hx
              · exact absurd hx hxt
              · exact List.mem_append.2 (Or.inr hx)
        · refine Or.inr (Or.inr ⟨w', ?_⟩)
          have hw : w' ≠ w := by
            intro e; subst e; rw [hpc] at h3; simp at h3
          simp only [Function.update_noteq hw]; exact h3
  | writerRead w ok =>
    obtain ⟨d, c, ws, i, hpc, -, ⟨-, rfl⟩ | ⟨-, rfl⟩⟩ := writerRead_cases hs
    · refine deviceInv_congr h rfl (fun _ => rfl) (fun _ => rfl) rfl (fun w' d' => ?_)
      by_cases hw : w' = w
      · subst hw; simp [hpc]
      · simp [Function.update_noteq hw]
    · refine deviceInv_fail h _ _ (fun _ hx => hx) (fun w' d' hd' => ?_)
      by_cases hw : w' = w
      · subst hw; simp at hd'
      · simpa [Function.update_noteq hw] using hd'
  | writerRelease w =>
    obtain ⟨d, c, ws, i, hpc, -, rfl⟩ := writerRelease_cases hs
    obtain ⟨ha, hc, hn, hq, hdr, hb⟩ := h
    have hwd : (s.writingThreads w).pc.drains d = true := by simp [hpc]
    have hother : ∀ w' d', w' ≠ w → (s.writingThreads w').pc.drains d' = true → d' ≠ d := by
      intro w' d' hw hx e; subst e; exact hw (hdr d' w' w hx hwd)
    have key : ∀ w' d', (Function.update s.writingThreads w
        { s.writingThreads w with pc := WriterPc.transposing c ws 0 } w').pc.drains d' = true →
        (s.writingThreads w').pc.drains d' = true ∧ w' ≠ w := by
      intro w' d' hx
      by_cases hw : w' = w
      · subst hw; simp at hx
      · simp only [Function.update_noteq hw] at hx; exact ⟨hx, hw⟩
    refine ⟨fun d' hd' => ?_, fun d' hd' => ?_, hn, fun x hx w' => ?_,
      fun d' w1 w2 h1 h2 => ?_, fun he' d' hd' => ?_⟩
    · by_cases hd : d' = d
      · subst hd
        refine ⟨?_, fun x hx e => ?_, fun w' => ?_⟩
        · cases hx : (s.generationThreads d').inFlight
          · rfl
          · have := (hc d' hx).2 w; rw [hwd] at this; exact absurd this (by simp)
        · have := hq x hx w; rw [e, hwd] at this; exact absurd this (by simp)
        · cases hx : (Function.update s.writingThreads w
              { s.writingThreads w with pc := WriterPc.transposing c ws 0 } w').pc.drains d'
          · rfl
          · obtain ⟨h1, h2⟩ := key w' d' hx
            exact absurd rfl (hother w' d' h2 h1)
      · simp only [Function.update_noteq hd] at hd'
        obtain ⟨h1, h2, h3⟩ := ha d' hd'
        refine ⟨h1, h2, fun w' => ?_⟩
        cases hx : (Function.update s.writingThreads w
              { s.writingThreads w with pc := WriterPc.transposing c ws 0 } w').pc.drains d'
        · rfl
        · have := h3 w'; rw [(key w' d' hx).1] at this; exact absurd this (by simp)
    · obtain ⟨h2, h3⟩ := hc d' hd'
      refine ⟨h2, fun w' => ?_⟩
      cases hx : (Function.update s.writingThreads w
            { s.writingThreads w with pc := WriterPc.transposing c ws 0 } w').pc.drains d'
      · rfl
      · have := h3 w'; rw [(key w' d' hx).1] at this; exact absurd this (by simp)
    · cases hx' : (Function.update s.writingThreads w
            { s.writingThreads w with pc := WriterPc.transposing c ws 0 } w').pc.drains x.device
      · rfl
      · have := hq x hx w'; rw [(key w' _ hx').1] at this; exact absurd this (by simp)
    · exact hdr d' w1 w2 (key w1 d' h1).1 (key w2 d' h2).1
    · by_cases hd : d' = d
      · subst hd; simp at hd'
      · simp only [Function.update_noteq hd] at hd'
        rcases hb he' d' hd' with h1 | h2 | ⟨w', h3⟩
        · exact Or.inl h1
        · exact Or.inr (Or.inl h2)
        · refine Or.inr (Or.inr ⟨w', ?_⟩)
          have hw : w' ≠ w := by
            intro e; subst e; rw [hpc] at h3
            simp only [WriterPc.drains, decide_eq_true_eq] at h3
            exact hd h3.symm
          simp only [Function.update_noteq hw]; exact h3
  | writerTranspose w ok =>
    obtain ⟨c, ws, i, hpc, -, th, hth, -, ⟨-, -, rfl⟩ | ⟨-, -, rfl⟩ | ⟨-, rfl⟩⟩ :=
      writerTranspose_cases hs
    · refine deviceInv_congr h rfl (fun _ => rfl) (fun _ => rfl) rfl (fun w' d' => ?_)
      by_cases hw : w' = w
      · subst hw; simp [hpc, hth]
      · simp [Function.update_noteq hw]
    · refine deviceInv_fail h _ _ (fun _ hx => hx) (fun w' d' hd' => ?_)
      by_cases hw : w' = w
      · subst hw; simp at hd'
      · simpa [Function.update_noteq hw] using hd'
    · refine deviceInv_congr h rfl (fun _ => rfl) (fun _ => rfl) rfl (fun w' d' => ?_)
      by_cases hw : w' = w
      · subst hw; simp [hpc, hth]
      · simp [Function.update_noteq hw]
  | writerAppend w =>
    obtain ⟨c, ws, i, hpc, -, rfl⟩ := writerAppend_cases hs
    refine deviceInv_congr h rfl (fun _ => rfl) (fun _ => rfl) rfl (fun w' d' => ?_)
    by_cases hw : w' = w
    · subst hw; simp [hpc]
    · simp [Function.update_noteq hw]
  | orchestratorCheck =>
    obtain ⟨o, rfl⟩ := orchestratorCheck_cases hs
    exact deviceInv_congr h rfl (fun _ => rfl) (fun _ => rfl) rfl (fun _ _ => rfl)
  | orchestratorJoin =>
    obtain ⟨o, rfl⟩ := orchestratorJoin_cases hs
    exact deviceInv_congr h rfl (fun _ => rfl) (fun _ => rfl) rfl (fun _ _ => rfl)

theorem reachable_deviceInv {job : Job nD nC} {s : State nD nC nW} (h : Reachable job s) :
    DeviceInv s := by
  induction h with
  | init => exact deviceInv_init job
  | step l _ hs ih => exact deviceInv_step job l ih hs

theorem holdInv_init (job : Job nD nC) : HoldInv (initialState job : State nD nC nW) := by
  constructor <;> simp [initialState]

theorem holdInv_weaken {s s' : State nD nC nW} (h : HoldInv s)
    (hc : ∀ c, (s'.contexts c).available = (s.contexts c).available)
    (hw : ∀ w x, (s'.writingThreads w).pc.batch = some x →
      (s.writingThreads w).pc.batch = some x ∧
        (s'.writingThreads w).pc.done = (s.writingThreads w).pc.done) :
    HoldInv s' := by
  obtain ⟨h1, h2, h3⟩ := h
  refine ⟨fun w c ws hx => ?_, fun w w' c ws ws' hx hx' => ?_, fun w c ws hx => ?_⟩
  · rw [hc]; exact h1 w c ws (hw w _ hx).1
  · exact h2 w w' c ws ws' (hw w _ hx).1 (hw w' _ hx').1
  · rw [(hw w _ hx).2]; exact h3 w c ws (hw w _ hx).1

theorem holdInv_step (job : Job nD nC) {s s' : State nD nC nW} (l : Label nD nW)
    (h : HoldInv s) (hs : step job s l = some s') : HoldInv s' := by
  cases l with
  | computeAcquire d =>
    obtain ⟨hpc, ⟨-, rfl⟩ | ⟨he, hav, c, -, rfl⟩⟩ := computeAcquire_cases hs
    · exact holdInv_weaken h (fun _ => rfl) (fun _ _ hx => ⟨hx, rfl⟩)
    · refine holdInv_weaken h (fun c' => ?_) (fun _ _ hx => ⟨hx, rfl⟩)
      by_cases hc : c' = c
      · subst hc; simp [GenerationContext.requestWorkSize]
      · simp [Function.update_noteq hc]
  | computeFinish d ok =>
    obtain ⟨c, st, ws, hpc, ⟨-, rfl⟩ | ⟨-, rfl⟩⟩ := computeFinish_cases hs
    · exact holdInv_weaken h (fun _ => rfl) (fun _ _ hx => ⟨hx, rfl⟩)
    · exact holdInv_weaken h (fun _ => rfl) (fun _ _ hx => ⟨hx, rfl⟩)
  | writerClaim w =>
    obtain ⟨hpc, ⟨-, rfl⟩ | ⟨he, t, ht, rfl⟩⟩ := writerClaim_cases hs
    · refine holdInv_weaken h (fun _ => rfl) (fun w' x hx => ?_)
      by_cases hw : w' = w
      · subst hw; simp at hx
      · simp only [Function.update_noteq hw] at hx ⊢; exact ⟨hx, trivial⟩
    · have hready := List.find?_some ht
      simp only [taskReady, Bool.and_eq_true] at hready
      obtain ⟨h1, h2, h3⟩ := h
      have hother : ∀ w' c ws, w' ≠ w → (s.writingThreads w').pc.batch = some (c, ws) →
          c ≠ t.context := by
        intro w' c ws _ hx e
        have := h1 w' c ws hx
        rw [e, hready.1] at this; exact absurd this (by simp)
      refine ⟨fun w' c ws hx => ?_, fun w1 w2 c ws ws' hx1 hx2 => ?_, fun w' c ws hx => ?_⟩
      · by_cases hw : w' = w
        · subst hw
          simp only [Function.update_same, WriterPc.batch, Option.some.injEq,
            Prod.mk.injEq] at hx
          rw [← hx.1]; simp
        · simp only [Function.update_noteq hw] at hx
          have hc := hother w' c ws hw hx
          simp only [Function.update_noteq hc]
          exact h1 w' c ws hx
      · by_cases hw1 : w1 = w <;> by_cases hw2 : w2 = w
        · rw [hw1, hw2]
        · subst hw1
          simp only [Function.update_same, WriterPc.batch, Option.some.injEq,
            Prod.mk.injEq] at hx1
          simp only [Function.update_noteq hw2] at hx2
          exact absurd hx1.1.symm (hother w2 c ws' hw2 hx2)
        · subst hw2
          simp only [Function.update_same, WriterPc.batch, Option.some.injEq,
            Prod.mk.injEq] at hx2
          simp only [Function.update_noteq hw1] at hx1
          exact absurd hx2.1.symm (hother w1 c ws hw1 hx1)
        · simp only [Function.update_noteq hw1] at hx1
          simp only [Function.update_noteq hw2] at hx2
          exact h2 w1 w2 c ws ws' hx1 hx2
      · by_cases hw : w' = w
        · subst hw; simp
        · simp only [Function.update_noteq hw] at hx ⊢
          exact h3 w' c ws hx
  | writerRead w ok =>
    obtain ⟨d, c, ws, i, hpc, -, ⟨-, rfl⟩ | ⟨-, rfl⟩⟩ := writerRead_cases hs
    · refine holdInv_weaken h (fun _ => rfl) (fun w' x hx => ?_)
      by_cases hw : w' = w
      · subst hw; simp only [Function.update_same] at hx ⊢; simpa [hpc] using hx
      · simp only [Function.update_noteq hw] at hx ⊢; exact ⟨hx, trivial⟩
    · refine holdInv_weaken h (fun _ => rfl) (fun w' x hx => ?_)
      by_cases hw : w' = w
      · subst hw; simp [writerFail] at hx
      · simp only [writerFail, Function.update_noteq hw] at hx ⊢; exact ⟨hx, trivial⟩
  | writerRelease w =>
    obtain ⟨d, c, ws, i, hpc, -, rfl⟩ := writerRelease_cases hs
    refine holdInv_weaken h (fun _ => rfl) (fun w' x hx => ?_)
    by_cases hw : w' = w
    · subst hw; simp only [Function.update_same] at hx ⊢; simpa [hpc] using hx
    · simp only [Function.update_noteq hw] at hx ⊢; exact ⟨hx, trivial⟩
  | writerTranspose w ok =>
    obtain ⟨c, ws, i, hpc, hi, th, hth, -, hcase⟩ := writerTranspose_cases hs
    have hadv : ∀ ctxs : Fin nC → GenerationContext,
        (∀ c', (ctxs c').available = (s.contexts c').available) →
        HoldInv
          { s with
            contexts := ctxs
            writingThreads := Function.update s.writingThreads w th } := by
      intro ctxs hctx
      obtain ⟨h1, h2, h3⟩ := h
      have key : ∀ w', (Function.update s.writingThreads w th w').pc.batch
          = (s.writingThreads w').pc.batch := by
        intro w'
        by_cases hw : w' = w
        · subst hw; simp [hth, hpc]
        · simp [Function.update_noteq hw]
      refine ⟨fun w' c' ws' hx => ?_, fun w1 w2 c' ws1 ws2 hx1 hx2 => ?_,
        fun w' c' ws' hx => ?_⟩
      · dsimp only at hx ⊢; rw [key] at hx; rw [hctx]; exact h1 w' c' ws' hx
      · dsimp only at hx1 hx2; rw [key] at hx1 hx2; exact h2 w1 w2 c' ws1 ws2 hx1 hx2
      · dsimp only at hx ⊢
        by_cases hw : w' = w
        · subst hw
          simp only [Function.update_same, hth, WriterPc.batch, WriterPc.done,
            Option.some.injEq, Prod.mk.injEq] at hx ⊢
          omega
        · rw [key] at hx
          simp only [Function.update_noteq hw]; exact h3 w' c' ws' hx
    rcases hcase with ⟨-, -, rfl⟩ | ⟨-, -, rfl⟩ | ⟨-, rfl⟩
    · refine hadv _ (fun c' => ?_)
      by_cases hc : c' = c
      · subst hc; simp
      · simp [Function.update_noteq hc]
    · refine holdInv_weaken h (fun _ => rfl) (fun w' x hx => ?_)
      by_cases hw : w' = w
      · subst hw; simp [writerFail] at hx
      · simp only [writerFail, Function.update_noteq hw] at hx ⊢; exact ⟨hx, trivial⟩
    · exact hadv _ (fun _ => rfl)
  | writerAppend w =>
    obtain ⟨c, ws, i, hpc, -, rfl⟩ := writerAppend_cases hs
    obtain ⟨h1, h2, h3⟩ := h
    have hwb : (s.writingThreads w).pc.batch = some (c, ws) := by simp [hpc]
    have key : ∀ w' x, (Function.update s.writingThreads w
        { s.writingThreads w with pc := WriterPc.waiting } w').pc.batch = some x →
        w' ≠ w ∧ (s.writingThreads w').pc.batch = some x := by
      intro w' x hx
      by_cases hw : w' = w
      · subst hw; simp at hx
      · simp only [Function.update_noteq hw] at hx; exact ⟨hw, hx⟩
    refine ⟨fun w' c' ws' hx => ?_, fun w1 w2 c' ws1 ws2 hx1 hx2 => ?_,
      fun w' c' ws' hx => ?_⟩
    · obtain ⟨hw, hy⟩ := key w' _ hx
      have hc : c' ≠ c := by
        intro e; rw [e] at hy; exact hw (h2 w' w c ws' ws hy hwb)
      simp only [Function.update_noteq hc]; exact h1 w' c' ws' hy
    · exact h2 w1 w2 c' ws1 ws2 (key w1 _ hx1).2 (key w2 _ hx2).2
    · obtain ⟨hw, hy⟩ := key w' _ hx
      simp only [Function.update_noteq hw]; exact h3 w' c' ws' hy
  | orchestratorCheck =>
    obtain ⟨o, rfl⟩ := orchestratorCheck_cases hs
    exact holdInv_weaken h (fun _ => rfl) (fun _ _ hx => ⟨hx, rfl⟩)
  | orchestratorJoin =>
    obtain ⟨o, rfl⟩ := orchestratorJoin_cases hs
    exact holdInv_weaken h (fun _ => rfl) (fun _ _ hx => ⟨hx, rfl⟩)

theorem reachable_holdInv {job : Job nD nC} {s : State nD nC nW} (h : Reachable job s) :
    HoldInv s := by
  induction h with
  | init => exact holdInv_init job
  | step l _ hs ih => exact holdInv_step job l ih hs

theorem freeInv_init (job : Job nD nC) : FreeInv (initialState job : State nD nC nW) := by
  constructor; simp [initialState]

theorem freeInv_error {s : State nD nC nW} (h : s.error = true) : FreeInv s := by
  constructor; intro he; rw [h] at he; exact absurd he (by simp)

theorem freeInv_keep {s s' : State nD nC nW} (h : FreeInv s) (he : s'.error = s.error)
    (hc : ∀ c, (s'.contexts c).available = (s.contexts c).available)
    (hw : ∀ w x, (s.writingThreads w).pc.batch = some x →
      (s'.writingThreads w).pc.batch = some x) : FreeInv s' := by
  constructor
  intro he' c hav
  rw [he] at he'; rw [hc] at hav
  obtain ⟨w, ws, hx⟩ := h.busy he' c hav
  exact ⟨w, ws, hw w _ hx⟩

theorem freeInv_step (job : Job nD nC) {s s' : State nD nC nW} (l : Label nD nW)
    (h : FreeInv s) (hs : step job s l = some s') : FreeInv s' := by
  cases l with
  | computeAcquire d =>
    obtain ⟨hpc, ⟨-, rfl⟩ | ⟨he, hav, c, -, rfl⟩⟩ := computeAcquire_cases hs
    · exact freeInv_keep h rfl (fun _ => rfl) (fun _ _ hx => hx)
    · refine freeInv_keep h rfl (fun c' => ?_) (fun _ _ hx => hx)
      by_cases hc : c' = c
      · subst hc; simp [GenerationContext.requestWorkSize]
      · simp [Function.update_noteq hc]
  | computeFinish d ok =>
    obtain ⟨c, st, ws, hpc, ⟨-, rfl⟩ | ⟨-, rfl⟩⟩ := computeFinish_cases hs
    · exact freeInv_keep h rfl (fun _ => rfl) (fun _ _ hx => hx)
    · exact freeInv_error rfl
  | writerClaim w =>
    obtain ⟨hpc, ⟨-, rfl⟩ | ⟨he, t, ht, rfl⟩⟩ := writerClaim_cases hs
    · refine freeInv_keep h rfl (fun _ => rfl) (fun w' x hx => ?_)
      by_cases hw : w' = w
      · subst hw; rw [hpc] at hx; simp at hx
      · simpa only [Function.update_noteq hw] using hx
    · constructor
      intro he' c hav
      by_cases hc : c = t.context
      · subst hc
        exact ⟨w, t.workSize, by simp⟩
      · simp only [Function.update_noteq hc] at hav
        obtain ⟨w', ws, hx⟩ := h.busy he' c hav
        have hw : w' ≠ w := by
          intro e; rw [e, hpc] at hx; simp at hx
        exact ⟨w', ws, by simpa only [Function.update_noteq hw] using hx⟩
  | writerRead w ok =>
    obtain ⟨d, c, ws, i, hpc, -, ⟨-, rfl⟩ | ⟨-, rfl⟩⟩ := writerRead_cases hs
    · refine freeInv_keep h rfl (fun _ => rfl) (fun w' x hx => ?_)
      by_cases hw : w' = w
      · subst hw; rw [hpc] at hx; simpa using hx
      · simpa only [Function.update_noteq hw] using hx
    · exact freeInv_error rfl
  | writerRelease w =>
    obtain ⟨d, c, ws, i, hpc, -, rfl⟩ := writerRelease_cases hs
    refine freeInv_keep h rfl (fun _ => rfl) (fun w' x hx => ?_)
    by_cases hw : w' = w
    · subst hw; rw [hpc] at hx; simpa using hx
    · simpa only [Function.update_noteq hw] using hx
  | writerTranspose w ok =>
    obtain ⟨c, ws, i, hpc, hi, th, hth, -, hcase⟩ := writerTranspose_cases hs
    have key : ∀ w' x, (s.writingThreads w').pc.batch = some x →
        (Function.update s.writingThreads w th w').pc.batch = some x := by
      intro w' x hx
      by_cases hw : w' = w
      · subst hw; rw [hpc] at hx; simpa [hth] using hx
      · simpa only [Function.update_noteq hw] using hx
    rcases hcase with ⟨-, -, rfl⟩ | ⟨-, -, rfl⟩ | ⟨-, rfl⟩
    · refine freeInv_keep h rfl (fun c' => ?_) key
      by_cases hc : c' = c
      · subst hc; simp
      · simp [Function.update_noteq hc]
    · exact freeInv_error rfl
    · exact freeInv_keep h rfl (fun _ => rfl) key
  | writerAppend w =>
    obtain ⟨c, ws, i, hpc, -, rfl⟩ := writerAppend_cases hs
    constructor
    intro he' c' hav
    by_cases hc : c' = c
    · subst hc; simp at hav
    · simp only [Function.update_noteq hc] at hav
      obtain ⟨w', ws', hx⟩ := h.busy he' c' hav
      have hw : w' ≠ w := by
        intro e; rw [e, hpc] at hx
        simp only [WriterPc.batch, Option.some.injEq, Prod.mk.injEq] at hx
        exact hc hx.1.symm
      exact ⟨w', ws', by simpa only [Function.update_noteq hw] using hx⟩
  | orchestratorCheck =>
    obtain ⟨o, rfl⟩ := orchestratorCheck_cases hs
    exact freeInv_keep h rfl (fun _ => rfl) (fun _ _ hx => hx)
  | orchestratorJoin =>
    obtain ⟨o, rfl⟩ := orchestratorJoin_cases hs
    exact freeInv_keep h rfl (fun _ => rfl) (fun _ _ hx => hx)

theorem reachable_freeInv {job : Job nD nC} {s : State nD nC nW} (h : Reachable job s) :
    FreeInv s := by
  induction h with
  | init => exact freeInv_init job
  | step l _ hs ih => exact freeInv_step job l ih hs

theorem foldl_select_mem {α : Type} (comp : α → α → Bool) (xs : List α) (x : α) :
    xs.foldl (fun smallest y => if comp y smallest then y else smallest) x ∈ x :: xs := by
  induction xs generalizing x with
  | nil => simp
  | cons y ys ih =>
    simp only [List.foldl_cons]
    have := ih (if comp y x then y else x)
    rcases List.mem_cons.1 this with h | h
    · rw [h]; split_ifs <;> simp
    · exact List.mem_cons_of_mem _ (List.mem_cons_of_mem _ h)

theorem min_element_mem {α : Type} (comp : α → α → Bool) (l : List α) (a : α)
    (h : min_element comp l = some a) : a ∈ l := by
  cases l with
  | nil => simp [min_element] at h
  | cons x xs =>
    simp only [min_element, Option.some.injEq] at h
    rw [← h]; exact foldl_select_mem comp xs x

theorem countInv_init (job : Job nD nC) (hnum : ∀ c, 0 < (job.config c).noncesNumber) :
    CountInv job (initialState job : State nD nC nW) := by
  constructor <;> simp [initialState, List.nodup_finRange, hnum]

theorem countInv_weaken {job : Job nD nC} {s s' : State nD nC nW} (h : CountInv job s)
    (hd : ∀ c, (s'.contexts c).noncesDistributed = (s.contexts c).noncesDistributed)
    (hwr : ∀ c, (s'.contexts c).noncesWritten = (s.contexts c).noncesWritten)
    (ha : s'.generationContexts = s.generationContexts)
    (hg : ∀ d c st ws, s'.generationThreads d = GenerationThread.computing c st ws →
      s.generationThreads d = GenerationThread.computing c st ws)
    (hq : ∀ t ∈ s'.pendingTasks, t ∈ s.pendingTasks ∨
      ∃ d, s.generationThreads d = GenerationThread.computing t.context t.startNonce t.workSize)
    (hh : ∀ t ∈ s'.history, t ∈ s.history ∨ t ∈ s.pendingTasks)
    (hw : ∀ w c ws, (s'.writingThreads w).pc.batch = some (c, ws) →
      (s.writingThreads w).pc.batch = some (c, ws) ∨
        ∃ t ∈ s.pendingTasks, t.context = c ∧ t.workSize = ws ∧
          (job.config c).startNonce + (s.contexts c).noncesWritten = t.startNonce) :
    CountInv job s' := by
  obtain ⟨h1, h2, h3, h4, h5, h6, h7, h8, h9, h10⟩ := h
  refine ⟨fun c => ?_, fun c => ?_, ?_, fun c => ?_, fun d c st ws hx => ?_, fun t ht => ?_,
    fun w c ws hx => ?_, fun hp d c st ws hx => ?_, fun hp t ht => ?_, fun hp t ht => ?_⟩
  · rw [hd, hwr]; exact h1 c
  · rw [hd]; exact h2 c
  · rw [ha]; exact h3
  · rw [ha, hd]; exact h4 c
  · rw [hd]; exact h5 d c st ws (hg d c st ws hx)
  · rw [hd]
    rcases hq t ht with hx | ⟨d, hx⟩
    · exact h6 t hx
    · exact h5 d _ _ _ hx
  · rw [hd, hwr]
    rcases hw w c ws hx with hy | ⟨t, ht, rfl, rfl, hy⟩
    · exact h7 w c ws hy
    · have := h6 t ht; omega
  · exact h8 hp d c st ws (hg d c st ws hx)
  · rcases hq t ht with hx | ⟨d, hx⟩
    · exact h9 hp t hx
    · exact h8 hp d _ _ _ hx
  · rcases hh t ht with hx | hx
    · exact h10 hp t hx
    · exact h9 hp t hx

theorem countInv_step (job : Job nD nC) {s s' : State nD nC nW} (l : Label nD nW)
    (hh : HoldInv s) (h : CountInv job s) (hs : step job s l = some s') : CountInv job s' := by
  cases l with
  | computeAcquire d =>
    obtain ⟨hpc, ⟨-, rfl⟩ | ⟨he, hav, c, hsel, rfl⟩⟩ := computeAcquire_cases hs
    · refine countInv_weaken h (fun _ => rfl) (fun _ => rfl) rfl (fun d' c st ws hx => ?_)
        (fun t ht => Or.inl ht) (fun t ht => Or.inl ht) (fun w c ws hx => Or.inl hx)
      by_cases hd : d' = d
      · subst hd; simp at hx
      · simpa [Function.update_noteq hd] using hx
    · obtain ⟨h1, h2, h3, h4, h5, h6, h7, h8, h9, h10⟩ := h
      have hmem : c ∈ s.generationContexts := min_element_mem _ _ _ hsel
      have hlt := (h4 c).1 hmem
      have hmin : min (job.globalWorkSize d)
          ((job.config c).noncesNumber - (s.contexts c).noncesDistributed)
          ≤ (job.config c).noncesNumber - (s.contexts c).noncesDistributed := min_le_right _ _
      have hdist : ∀ c', (s.contexts c').noncesDistributed ≤
          (Function.update s.contexts c
            ((s.contexts c).requestWorkSize (job.config c) (job.globalWorkSize d)).2
              c').noncesDistributed := by
        intro c'
        by_cases hc : c' = c
        · subst hc; simp [GenerationContext.requestWorkSize]
        · simp [Function.update_noteq hc]
      have hwr : ∀ c', (Function.update s.contexts c
            ((s.contexts c).requestWorkSize (job.config c) (job.globalWorkSize d)).2
              c').noncesWritten = (s.contexts c').noncesWritten := by
        intro c'
        by_cases hc : c' = c
        · subst hc; simp [GenerationContext.requestWorkSize]
        · simp [Function.update_noteq hc]
      refine ⟨fun c' => ?_, fun c' => ?_, ?_, fun c' => ?_, fun d' c' st ws hx => ?_,
        fun t ht => ?_, fun w c' ws hx => ?_, fun hp d' c' st ws hx => ?_, h9, h10⟩
      · dsimp only; rw [hwr]; exact le_trans (h1 c') (hdist c')
      · dsimp only
        by_cases hc : c' = c
        · subst hc
          simp only [Function.update_same, GenerationContext.requestWorkSize]
          omega
        · simp only [Function.update_noteq hc]; exact h2 c'
      · dsimp only
        split_ifs
        · exact h3.erase c
        · exact h3
      · dsimp only
        by_cases hc : c' = c
        · subst hc
          simp only [Function.update_same, GenerationContext.requestWorkSize]
          split_ifs with hx
          · constructor
            · intro hm; exact absurd hm (h3.not_mem_erase)
            · intro hlt'; omega
          · constructor
            · intro _; omega
            · intro _; exact hmem
        · simp only [Function.update_noteq hc]
          split_ifs
          · rw [List.mem_erase_of_ne hc]; exact h4 c'
          · exact h4 c'
      · dsimp only at hx ⊢
        by_cases hd : d' = d
        · subst hd
          simp only [Function.update_same, GenerationThread.computing.injEq] at hx
          obtain ⟨rfl, rfl, rfl⟩ := hx
          simp only [Function.update_same, GenerationContext.requestWorkSize,
            GenerationContext.getCurrentDistributedNonce]
          omega
        · simp only [Function.update_noteq hd] at hx
          exact le_trans (h5 d' c' st ws hx) (Nat.add_le_add_left (hdist c') _)
      · exact le_trans (h6 t ht) (Nat.add_le_add_left (hdist _) _)
      · dsimp only at hx ⊢
        rw [hwr]; exact le_trans (h7 w c' ws hx) (hdist c')
      · dsimp only at hx
        by_cases hd : d' = d
        · subst hd
          simp only [Function.update_same, GenerationThread.computing.injEq] at hx
          obtain ⟨rfl, rfl, rfl⟩ := hx
          simp only [GenerationContext.requestWorkSize]
          have := hp d'
          omega
        · simp only [Function.update_noteq hd] at hx
          exact h8 hp d' c' st ws hx
  | computeFinish d ok =>
    obtain ⟨c, st, ws, hpc, ⟨-, rfl⟩ | ⟨-, rfl⟩⟩ := computeFinish_cases hs
    · refine countInv_weaken h (fun _ => rfl) (fun _ => rfl) rfl (fun d' c st ws hx => ?_)
        (fun t ht => ?_) (fun t ht => Or.inl ht) (fun w c ws hx => Or.inl hx)
      · by_cases hd : d' = d
        · subst hd; simp at hx
        · simpa [Function.update_noteq hd] using hx
      · rcases List.mem_append.1 ht with ht | ht
        · exact Or.inl ht
        · simp only [List.mem_singleton] at ht; subst ht; exact Or.inr ⟨d, hpc⟩
    · refine countInv_weaken h (fun _ => rfl) (fun _ => rfl) rfl (fun d' c st ws hx => ?_)
        (fun t ht => ?_) (fun t ht => Or.inl ht) (fun w c ws hx => Or.inl hx)
      · by_cases hd : d' = d
        · subst hd; simp at hx
        · simpa [Function.update_noteq hd] using hx
      · simp at ht
  | writerClaim w =>
    obtain ⟨hpc, ⟨-, rfl⟩ | ⟨he, t, ht, rfl⟩⟩ := writerClaim_cases hs
    · refine countInv_weaken h (fun _ => rfl) (fun _ => rfl) rfl (fun _ _ _ _ hx => hx)
        (fun t ht => Or.inl ht) (fun t ht => Or.inl ht) (fun w' c ws hx => ?_)
      by_cases hw : w' = w
      · subst hw; simp at hx
      · simp only [Function.update_noteq hw] at hx; exact Or.inl hx
    · have hready := List.find?_some ht
      have htm := List.mem_of_find?_eq_some ht
      simp only [taskReady, Bool.and_eq_true, beq_iff_eq,
        GenerationContext.getCurrentWrittenNonce] at hready
      refine countInv_weaken h (fun c' => ?_) (fun c' => ?_) rfl (fun _ _ _ _ hx => hx)
        (fun x hx => Or.inl ((List.eraseP_sublist _).subset hx)) (fun x hx => ?_)
        (fun w' c ws hx => ?_)
      · by_cases hc : c' = t.context
        · subst hc; simp
        · simp [Function.update_noteq hc]
      · by_cases hc : c' = t.context
        · subst hc; simp
        · simp [Function.update_noteq hc]
      · rcases List.mem_append.1 hx with hx | hx
        · exact Or.inl hx
        · simp only [List.mem_singleton] at hx; subst hx; exact Or.inr htm
      · by_cases hw : w' = w
        · subst hw
          simp only [Function.update_same, WriterPc.batch, Option.some.injEq,
            Prod.mk.injEq] at hx
          obtain ⟨rfl, rfl⟩ := hx
          exact Or.inr ⟨t, htm, rfl, rfl, hready.2⟩
        · simp only [Function.update_noteq hw] at hx; exact Or.inl hx
  | writerRead w ok =>
    obtain ⟨d, c, ws, i, hpc, -, ⟨-, rfl⟩ | ⟨-, rfl⟩⟩ := writerRead_cases hs
    · refine countInv_weaken h (fun _ => rfl) (fun _ => rfl) rfl (fun _ _ _ _ hx => hx)
        (fun t ht => Or.inl ht) (fun t ht => Or.inl ht) (fun w' c ws hx => ?_)
      by_cases hw : w' = w
      · subst hw; simp only [Function.update_same] at hx; left; simpa [hpc] using hx
      · simp only [Function.update_noteq hw] at hx; exact Or.inl hx
    · refine countInv_weaken h (fun _ => rfl) (fun _ => rfl) rfl (fun _ _ _ _ hx => hx)
        (fun t ht => ?_) (fun t ht => Or.inl ht) (fun w' c ws hx => ?_)
      · simp [writerFail] at ht
      · by_cases hw : w' = w
        · subst hw; simp [writerFail] at hx
        · simp only [writerFail, Function.update_noteq hw] at hx; exact Or.inl hx
  | writerRelease w =>
    obtain ⟨d, c, ws, i, hpc, -, rfl⟩ := writerRelease_cases hs
    refine countInv_weaken h (fun _ => rfl) (fun _ => rfl) rfl (fun _ _ _ _ hx => hx)
      (fun t ht => Or.inl ht) (fun t ht => Or.inl ht) (fun w' c ws hx => ?_)
    by_cases hw : w' = w
    · subst hw; simp only [Function.update_same] at hx; left; simpa [hpc] using hx
    · simp only [Function.update_noteq hw] at hx; exact Or.inl hx
  | writerTranspose w ok =>
    obtain ⟨c, ws, i, hpc, hi, th, hth, -, hcase⟩ := writerTranspose_cases hs
    have key : ∀ w' c' ws', (Function.update s.writingThreads w th w').pc.batch = some (c', ws') →
        (s.writingThreads w').pc.batch = some (c', ws') := by
      intro w' c' ws' hx
      by_cases hw : w' = w
      · subst hw; simp only [Function.update_same, hth] at hx; simpa [hpc] using hx
      · simpa only [Function.update_noteq hw] using hx
    rcases hcase with ⟨-, -, rfl⟩ | ⟨-, -, rfl⟩ | ⟨-, rfl⟩
    · refine countInv_weaken h (fun c' => ?_) (fun c' => ?_) rfl (fun _ _ _ _ hx => hx)
        (fun t ht => Or.inl ht) (fun t ht => Or.inl ht) (fun w' c ws hx => Or.inl (key w' c ws hx))
      · by_cases hc : c' = c
        · subst hc; simp
        · simp [Function.update_noteq hc]
      · by_cases hc : c' = c
        · subst hc; simp
        · simp [Function.update_noteq hc]
    · refine countInv_weaken h (fun _ => rfl) (fun _ => rfl) rfl (fun _ _ _ _ hx => hx)
        (fun t ht => ?_) (fun t ht => Or.inl ht) (fun w' c ws hx => ?_)
      · simp [writerFail] at ht
      · by_cases hw : w' = w
        · subst hw; simp [writerFail] at hx
        · simp only [writerFail, Function.update_noteq hw] at hx; exact Or.inl hx
    · exact countInv_weaken h (fun _ => rfl) (fun _ => rfl) rfl (fun _ _ _ _ hx => hx)
        (fun t ht => Or.inl ht) (fun t ht => Or.inl ht) (fun w' c ws hx => Or.inl (key w' c ws hx))
  | writerAppend w =>
    obtain ⟨c, ws, i, hpc, -, rfl⟩ := writerAppend_cases hs
    obtain ⟨h1, h2, h3, h4, h5, h6, h7, h8, h9, h10⟩ := h
    have hwb : (s.writingThreads w).pc.batch = some (c, ws) := by simp [hpc]
    have hcw := h7 w c ws hwb
    have hdist : ∀ c', (Function.update s.contexts c
          { (s.contexts c).appendWorkSize ws with available := true } c').noncesDistributed
        = (s.contexts c').noncesDistributed := by
      intro c'
      by_cases hc : c' = c
      · subst hc; simp [GenerationContext.appendWorkSize]
      · simp [Function.update_noteq hc]
    refine ⟨fun c' => ?_, fun c' => ?_, h3, fun c' => ?_, fun d' c' st ws' hx => ?_,
      fun t ht => ?_, fun w' c' ws' hx => ?_, h8, h9, h10⟩
    · dsimp only; rw [hdist]
      by_cases hc : c' = c
      · subst hc; simpa [GenerationContext.appendWorkSize] using hcw
      · simp only [Function.update_noteq hc]; exact h1 c'
    · dsimp only; rw [hdist]; exact h2 c'
    · dsimp only; rw [hdist]; exact h4 c'
    · dsimp only; rw [hdist]; exact h5 d' c' st ws' hx
    · dsimp only; rw [hdist]; exact h6 t ht
    · dsimp only at hx ⊢; rw [hdist]
      by_cases hw : w' = w
      · subst hw; simp at hx
      · simp only [Function.update_noteq hw] at hx
        have hc : c' ≠ c := by
          intro e; rw [e] at hx; exact hw (hh.uniq w' w c ws' ws hx hwb)
        simp only [Function.update_noteq hc]; exact h7 w' c' ws' hx
  | orchestratorCheck =>
    obtain ⟨o, rfl⟩ := orchestratorCheck_cases hs
    exact countInv_weaken h (fun _ => rfl) (fun _ => rfl) rfl (fun _ _ _ _ hx => hx)
      (fun t ht => Or.inl ht) (fun t ht => Or.inl ht) (fun w c ws hx => Or.inl hx)
  | orchestratorJoin =>
    obtain ⟨o, rfl⟩ := orchestratorJoin_cases hs
    exact countInv_weaken h (fun _ => rfl) (fun _ => rfl) rfl (fun _ _ _ _ hx => hx)
      (fun t ht => Or.inl ht) (fun t ht => Or.inl ht) (fun w c ws hx => Or.inl hx)

theorem reachable_countInv {job : Job nD nC} (hnum : ∀ c, 0 < (job.config c).noncesNumber)
    {s : State nD nC nW} (h : Reachable job s) : CountInv job s := by
  induction h with
  | init => exact countInv_init job hnum
  | step l hr hs ih => exact countInv_step job l (reachable_holdInv hr) ih hs

theorem contiguous_append {a b : Nat} {l : List (PendingTask nD nC)} {t : PendingTask nD nC}
    (h : Contiguous a l b) (ht : t.startNonce = b) :
    Contiguous a (l ++ [t]) (b + t.workSize) := by
  induction l generalizing a with
  | nil =>
    simp only [Contiguous] at h
    subst h
    exact ⟨ht, rfl⟩
  | cons x xs ih => exact ⟨h.1, ih h.2⟩

theorem flushedBytes_succ_of_last {S n : Nat} (hS : 0 < S) (h : n % S = S - 1) :
    flushedBytes S (n + 1) = flushedBytes S n + PLOT_SIZE * S := by
  have hd : (n + 1) / S = n / S + 1 := by
    have h1 := Nat.div_add_mod n S
    have : (n + 1) / S = n / S + 1 ∧ (n + 1) % S = 0 := by
      rw [Nat.div_mod_unique hS]
      constructor
      · rw [Nat.mul_add]; omega
      · exact hS
    exact this.1
  unfold flushedBytes
  rw [hd]; ring

theorem flushedBytes_succ_of_not_last {S n : Nat} (hS : 0 < S) (h : n % S ≠ S - 1) :
    flushedBytes S (n + 1) = flushedBytes S n := by
  have hd : (n + 1) / S = n / S := by
    have h1 := Nat.div_add_mod n S
    have h2 := Nat.mod_lt n hS
    have : (n + 1) / S = n / S ∧ (n + 1) % S = n % S + 1 := by
      rw [Nat.div_mod_unique hS]
      constructor
      · omega
      · omega
    exact this.1
  unfold flushedBytes
  rw [hd]

theorem writeInv_init (job : Job nD nC) : WriteInv job (initialState job : State nD nC nW) := by
  constructor <;> simp [initialState, flushedBytes, claimed, Contiguous]

theorem writeInv_weaken {job : Job nD nC} {s s' : State nD nC nW} (h : WriteInv job s)
    (ha : ∀ c, (s'.contexts c).available = (s.contexts c).available)
    (hwr : ∀ c, (s'.contexts c).noncesWritten = (s.contexts c).noncesWritten)
    (hsz : ∀ c, (s'.contexts c).plotsFile.size = (s.contexts c).plotsFile.size)
    (hh : s'.history = s.history)
    (hw : ∀ w x, (s'.writingThreads w).pc.batch = some x →
      (s.writingThreads w).pc.batch = some x ∧
        (s'.writingThreads w).pc.done = (s.writingThreads w).pc.done) :
    WriteInv job s' := by
  obtain ⟨h1, h2, h3, h4, h5⟩ := h
  have hcl : ∀ c, claimed s' c = claimed s c := fun c => by simp only [claimed, hh]
  refine ⟨fun hS c hc => ?_, fun hS w c ws hx => ?_, fun c hc => ?_, fun w c ws hx => ?_,
    fun c => by rw [hcl]; exact h5 c⟩
  · rw [hsz, hwr]; rw [ha] at hc; exact h1 hS c hc
  · rw [hsz, hwr, (hw w _ hx).2]; exact h2 hS w c ws (hw w _ hx).1
  · rw [hcl, hwr]; rw [ha] at hc; exact h3 c hc
  · rw [hcl, hwr]; exact h4 w c ws (hw w _ hx).1

theorem writeInv_step (job : Job nD nC) {s s' : State nD nC nW} (l : Label nD nW)
    (hh : HoldInv s) (h : WriteInv job s) (hs : step job s l = some s') : WriteInv job s' := by
  cases l with
  | computeAcquire d =>
    obtain ⟨hpc, ⟨-, rfl⟩ | ⟨he, hav, c, hsel, rfl⟩⟩ := computeAcquire_cases hs
    · exact writeInv_weaken h (fun _ => rfl) (fun _ => rfl) (fun _ => rfl) rfl
        (fun _ _ hx => ⟨hx, rfl⟩)
    · refine writeInv_weaken h (fun c' => ?_) (fun c' => ?_) (fun c' => ?_) rfl
        (fun _ _ hx => ⟨hx, rfl⟩)
      all_goals
        by_cases hc : c' = c
        · subst hc; simp [GenerationContext.requestWorkSize]
        · simp [Function.update_noteq hc]
  | computeFinish d ok =>
    obtain ⟨c, st, ws, hpc, ⟨-, rfl⟩ | ⟨-, rfl⟩⟩ := computeFinish_cases hs
    · exact writeInv_weaken h (fun _ => rfl) (fun _ => rfl) (fun _ => rfl) rfl
        (fun _ _ hx => ⟨hx, rfl⟩)
    · exact writeInv_weaken h (fun _ => rfl) (fun _ => rfl) (fun _ => rfl) rfl
        (fun _ _ hx => ⟨hx, rfl⟩)
  | writerClaim w =>
    obtain ⟨hpc, ⟨-, rfl⟩ | ⟨he, t, ht, rfl⟩⟩ := writerClaim_cases hs
    · refine writeInv_weaken h (fun _ => rfl) (fun _ => rfl) (fun _ => rfl) rfl
        (fun w' x hx => ?_)
      by_cases hw : w' = w
      · subst hw; simp at hx
      · simp only [Function.update_noteq hw] at hx ⊢; exact ⟨hx, trivial⟩
    · have hready := List.find?_some ht
      simp only [taskReady, Bool.and_eq_true, beq_iff_eq,
        GenerationContext.getCurrentWrittenNonce] at hready
      obtain ⟨h1, h2, h3, h4, h5⟩ := h
      have hother : ∀ w' c ws, (s.writingThreads w').pc.batch = some (c, ws) →
          c ≠ t.context := by
        intro w' c ws hx e
        have := hh.held w' c ws hx
        rw [e, hready.1] at this; exact absurd this (by simp)
      have hcl : ∀ c, c ≠ t.context → claimed
          { s with
            pendingTasks := s.pendingTasks.eraseP (taskReady job s)
            contexts := Function.update s.contexts t.context
              { s.contexts t.context with available := false }
            writingThreads := Function.update s.writingThreads w
              { s.writingThreads w with
                pc := WriterPc.draining t.device t.context t.workSize 0 }
            history := s.history ++ [t] } c = claimed s c := by
        intro c hc
        simp [claimed, List.filter_append, List.filter_cons, Ne.symm hc]
      have hcl' : claimed
          { s with
            pendingTasks := s.pendingTasks.eraseP (taskReady job s)
            contexts := Function.update s.contexts t.context
              { s.contexts t.context with available := false }
            writingThreads := Function.update s.writingThreads w
              { s.writingThreads w with
                pc := WriterPc.draining t.device t.context t.workSize 0 }
            history := s.history ++ [t] } t.context = claimed s t.context ++ [t] := by
        simp [claimed, List.filter_append, List.filter_cons]
      refine ⟨fun hS c hc => ?_, fun hS w' c ws hx => ?_, fun c hc => ?_,
        fun w' c ws hx => ?_, fun c => ?_⟩
      · by_cases hct : c = t.context
        · subst hct; simp at hc
        · simp only [Function.update_noteq hct] at hc ⊢
          exact h1 hS c hc
      · by_cases hw : w' = w
        · subst hw
          simp only [Function.update_same, WriterPc.batch, Option.some.injEq,
            Prod.mk.injEq] at hx
          obtain ⟨rfl, rfl⟩ := hx
          simpa using h1 hS t.context hready.1
        · simp only [Function.update_noteq hw] at hx ⊢
          have hct := hother w' c ws hx
          simp only [Function.update_noteq hct]
          exact h2 hS w' c ws hx
      · by_cases hct : c = t.context
        · subst hct; simp at hc
        · simp only [Function.update_noteq hct] at hc ⊢
          rw [hcl c hct]; exact h3 c hc
      · by_cases hw : w' = w
        · subst hw
          simp only [Function.update_same, WriterPc.batch, Option.some.injEq,
            Prod.mk.injEq] at hx
          obtain ⟨rfl, rfl⟩ := hx
          rw [hcl']
          simp only [Function.update_same]
          exact contiguous_append (h3 t.context hready.1) hready.2.symm
        · simp only [Function.update_noteq hw] at hx
          have hct := hother w' c ws hx
          simp only [Function.update_noteq hct]
          rw [hcl c hct]; exact h4 w' c ws hx
      · by_cases hct : c = t.context
        · subst hct
          rw [hcl']
          exact ⟨_, contiguous_append (h3 t.context hready.1) hready.2.symm⟩
        · rw [hcl c hct]; exact h5 c
  | writerRead w ok =>
    obtain ⟨d, c, ws, i, hpc, -, ⟨-, rfl⟩ | ⟨-, rfl⟩⟩ := writerRead_cases hs
    · refine writeInv_weaken h (fun _ => rfl) (fun _ => rfl) (fun _ => rfl) rfl
        (fun w' x hx => ?_)
      by_cases hw : w' = w
      · subst hw; simp only [Function.update_same] at hx ⊢; simpa [hpc] using hx
      · simp only [Function.update_noteq hw] at hx ⊢; exact ⟨hx, trivial⟩
    · refine writeInv_weaken h (fun _ => rfl) (fun _ => rfl) (fun _ => rfl) rfl
        (fun w' x hx => ?_)
      by_cases hw : w' = w
      · subst hw; simp [writerFail] at hx
      · simp only [writerFail, Function.update_noteq hw] at hx ⊢; exact ⟨hx, trivial⟩
  | writerRelease w =>
    obtain ⟨d, c, ws, i, hpc, -, rfl⟩ := writerRelease_cases hs
    refine writeInv_weaken h (fun _ => rfl) (fun _ => rfl) (fun _ => rfl) rfl
      (fun w' x hx => ?_)
    by_cases hw : w' = w
    · subst hw; simp only [Function.update_same] at hx ⊢; simpa [hpc] using hx
    · simp only [Function.update_noteq hw] at hx ⊢; exact ⟨hx, trivial⟩
  | writerTranspose w ok =>
    obtain ⟨c, ws, i, hpc, hi, th, hth, -, hcase⟩ := writerTranspose_cases hs
    have hwb : (s.writingThreads w).pc.batch = some (c, ws) := by simp [hpc]
    have hwd : (s.writingThreads w).pc.done = i := by simp [hpc]
    have hadv : ∀ ctxs : Fin nC → GenerationContext,
        (∀ c', (ctxs c').available = (s.contexts c').available) →
        (∀ c', (ctxs c').noncesWritten = (s.contexts c').noncesWritten) →
        (∀ c', c' ≠ c → (ctxs c').plotsFile.size = (s.contexts c').plotsFile.size) →
        ((∀ c, 0 < (job.config c).staggerSize) → (ctxs c).plotsFile.size
          = flushedBytes (job.config c).staggerSize ((s.contexts c).noncesWritten + (i + 1))) →
        WriteInv job
          { s with
            contexts := ctxs
            writingThreads := Function.update s.writingThreads w th } := by
      intro ctxs hav hwr hsz hnew
      obtain ⟨h1, h2, h3, h4, h5⟩ := h
      have key : ∀ w', (Function.update s.writingThreads w th w').pc.batch
          = (s.writingThreads w').pc.batch := by
        intro w'
        by_cases hw : w' = w
        · subst hw; simp [hth, hpc]
        · simp [Function.update_noteq hw]
      have hcl : ∀ c', claimed
          { s with
            contexts := ctxs
            writingThreads := Function.update s.writingThreads w th } c' = claimed s c' :=
        fun _ => rfl
      refine ⟨fun hS c' hc => ?_, fun hS w' c' ws' hx => ?_, fun c' hc => ?_,
        fun w' c' ws' hx => ?_, fun c' => by rw [hcl]; exact h5 c'⟩
      · dsimp only at hc ⊢
        rw [hav] at hc
        have hne : c' ≠ c := by
          intro e; rw [e, hh.held w c ws hwb] at hc; exact absurd hc (by simp)
        rw [hsz c' hne, hwr]; exact h1 hS c' hc
      · dsimp only at hx ⊢
        rw [key] at hx
        by_cases hw : w' = w
        · subst hw
          rw [hwb] at hx
          simp only [Option.some.injEq, Prod.mk.injEq] at hx
          obtain ⟨rfl, rfl⟩ := hx
          simp only [Function.update_same, hth, WriterPc.done, hwr]
          exact hnew hS
        · have hne : c' ≠ c := by
            intro e; rw [e] at hx; exact hw (hh.uniq w' w c ws' ws hx hwb)
          simp only [Function.update_noteq hw]
          rw [hsz c' hne, hwr]; exact h2 hS w' c' ws' hx
      · rw [hcl]; dsimp only at hc ⊢; rw [hav] at hc; rw [hwr]; exact h3 c' hc
      · rw [hcl]; dsimp only at hx ⊢; rw [key] at hx; rw [hwr]; exact h4 w' c' ws' hx
    rcases hcase with ⟨hlast, -, rfl⟩ | ⟨-, -, rfl⟩ | ⟨hlast, rfl⟩
    · refine hadv _ (fun c' => ?_) (fun c' => ?_) (fun c' hc => ?_) (fun hS => ?_)
      · by_cases hc : c' = c
        · subst hc; simp
        · simp [Function.update_noteq hc]
      · by_cases hc : c' = c
        · subst hc; simp
        · simp [Function.update_noteq hc]
      · simp [Function.update_noteq hc]
      · simp only [Function.update_same, PlotsFile.write]
        have := h.sinkHold hS w c ws hwb
        rw [hwd] at this
        rw [this, ← Nat.add_assoc, flushedBytes_succ_of_last (hS c) hlast]
    · refine writeInv_weaken h (fun _ => rfl) (fun _ => rfl) (fun _ => rfl) rfl
        (fun w' x hx => ?_)
      by_cases hw : w' = w
      · subst hw; simp [writerFail] at hx
      · simp only [writerFail, Function.update_noteq hw] at hx ⊢; exact ⟨hx, trivial⟩
    · refine hadv _ (fun _ => rfl) (fun _ => rfl) (fun _ _ => rfl) (fun hS => ?_)
      have := h.sinkHold hS w c ws hwb
      rw [hwd] at this
      rw [this, ← Nat.add_assoc, flushedBytes_succ_of_not_last (hS c) hlast]
  | writerAppend w =>
    obtain ⟨c, ws, i, hpc, hi, rfl⟩ := writerAppend_cases hs
    obtain ⟨h1, h2, h3, h4, h5⟩ := h
    have hwb : (s.writingThreads w).pc.batch = some (c, ws) := by simp [hpc]
    have hwd : (s.writingThreads w).pc.done = i := by simp [hpc]
    have hiws : i = ws := by
      have := hh.bound w c ws hwb
      rw [hwd] at this; omega
    have key : ∀ w' c' ws', (Function.update s.writingThreads w
        { s.writingThreads w with pc := WriterPc.waiting } w').pc.batch = some (c', ws') →
        w' ≠ w ∧ c' ≠ c ∧ (s.writingThreads w').pc.batch = some (c', ws') := by
      intro w' c' ws' hx
      by_cases hw : w' = w
      · subst hw; simp at hx
      · simp only [Function.update_noteq hw] at hx
        refine ⟨hw, ?_, hx⟩
        intro e; rw [e] at hx; exact hw (hh.uniq w' w c ws' ws hx hwb)
    have hcl : ∀ c', claimed
        { s with
          contexts := Function.update s.contexts c
            { (s.contexts c).appendWorkSize ws with available := true }
          writingThreads := Function.update s.writingThreads w
            { s.writingThreads w with pc := WriterPc.waiting } } c' = claimed s c' :=
      fun _ => rfl
    refine ⟨fun hS c' hc => ?_, fun hS w' c' ws' hx => ?_, fun c' hc => ?_,
      fun w' c' ws' hx => ?_, fun c' => by rw [hcl]; exact h5 c'⟩
    · by_cases hcc : c' = c
      · subst hcc
        simp only [Function.update_same, GenerationContext.appendWorkSize]
        have := h2 hS w c' ws hwb
        rw [hwd, hiws] at this; exact this
      · simp only [Function.update_noteq hcc] at hc ⊢
        exact h1 hS c' hc
    · obtain ⟨hw, hcc, hy⟩ := key w' c' ws' hx
      simp only [Function.update_noteq hw, Function.update_noteq hcc]
      exact h2 hS w' c' ws' hy
    · rw [hcl]
      by_cases hcc : c' = c
      · subst hcc
        simp only [Function.update_same, GenerationContext.appendWorkSize]
        rw [← Nat.add_assoc]; exact h4 w c' ws hwb
      · simp only [Function.update_noteq hcc] at hc ⊢
        exact h3 c' hc
    · rw [hcl]
      obtain ⟨hw, hcc, hy⟩ := key w' c' ws' hx
      simp only [Function.update_noteq hcc]
      exact h4 w' c' ws' hy
  | orchestratorCheck =>
    obtain ⟨o, rfl⟩ := orchestratorCheck_cases hs
    exact writeInv_weaken h (fun _ => rfl) (fun _ => rfl) (fun _ => rfl) rfl
      (fun _ _ hx => ⟨hx, rfl⟩)
  | orchestratorJoin =>
    obtain ⟨o, rfl⟩ := orchestratorJoin_cases hs
    exact writeInv_weaken h (fun _ => rfl) (fun _ => rfl) (fun _ => rfl) rfl
      (fun _ _ hx => ⟨hx, rfl⟩)

theorem reachable_writeInv {job : Job nD nC} {s : State nD nC nW} (h : Reachable job s) :
    WriteInv job s := by
  induction h with
  | init => exact writeInv_init job
  | step l hr hs ih => exact writeInv_step job l (reachable_holdInv hr) ih hs

theorem transposeScoops_frame (bd : Buffer) (off sn S : Nat) (fuel k : Nat) (b : Buffer) (p : Nat)
    (h : ∀ j, k ≤ j → j < k + fuel →
      ¬ (sn * SCOOP_SIZE + j * SCOOP_SIZE * S ≤ p ∧
          p < sn * SCOOP_SIZE + j * SCOOP_SIZE * S + SCOOP_SIZE)) :
    transposeScoops bd off sn S fuel (k * SCOOP_SIZE) b p = b p := by
  induction fuel generalizing k b with
  | zero => rfl
  | succ fuel ih =>
    unfold transposeScoops
    split_ifs with hlt
    · have e : k * SCOOP_SIZE + SCOOP_SIZE = (k + 1) * SCOOP_SIZE := by ring
      rw [e, ih (k + 1) _ (fun j hj1 hj2 => h j (by omega) (by omega))]
      have := h k (le_refl k) (by omega)
      unfold copy_n
      rw [if_neg this]
    · rfl

theorem transposeScoops_scoop (bd : Buffer) (off sn S : Nat) (hS : 0 < S) (fuel k : Nat)
    (b : Buffer) (hk : (k + fuel) * SCOOP_SIZE ≤ PLOT_SIZE) (j : Nat) (hj1 : k ≤ j)
    (hj2 : j < k + fuel) (x : Nat) (hx : x < SCOOP_SIZE) :
    transposeScoops bd off sn S fuel (k * SCOOP_SIZE) b (sn * SCOOP_SIZE + j * SCOOP_SIZE * S + x)
      = bd (off + j * SCOOP_SIZE + x) := by
  induction fuel generalizing k b with
  | zero => omega
  | succ fuel ih =>
    unfold transposeScoops
    have hlt : k * SCOOP_SIZE < PLOT_SIZE := by
      have : (k + (fuel + 1)) * SCOOP_SIZE = k * SCOOP_SIZE + (fuel + 1) * SCOOP_SIZE := by ring
      have h64 : 0 < (fuel + 1) * SCOOP_SIZE := by unfold SCOOP_SIZE; omega
      omega
    rw [if_pos hlt]
    have e : k * SCOOP_SIZE + SCOOP_SIZE = (k + 1) * SCOOP_SIZE := by ring
    rw [e]
    by_cases hjk : j = k
    · subst hjk
      rw [transposeScoops_frame]
      · unfold copy_n
        rw [if_pos ⟨by omega, by omega⟩]
        congr 1
        omega
      · intro j' hj1' _ hcon
        have h1 : (j + 1) * (SCOOP_SIZE * S) ≤ j' * (SCOOP_SIZE * S) :=
          Nat.mul_le_mul_right _ hj1'
        have h2 : (j + 1) * (SCOOP_SIZE * S) = j * SCOOP_SIZE * S + SCOOP_SIZE * S := by ring
        have h3 : j' * (SCOOP_SIZE * S) = j' * SCOOP_SIZE * S := by ring
        have h4 : SCOOP_SIZE * 1 ≤ SCOOP_SIZE * S := Nat.mul_le_mul_left _ hS
        omega
    · have hk' : (k + 1 + fuel) * SCOOP_SIZE ≤ PLOT_SIZE := by
        have : k + 1 + fuel = k + (fuel + 1) := by omega
        rw [this]; exact hk
      exact ih (k + 1) _ hk' (by omega) (by omega)

/-- The bytes of scoop `j` of plot `i` of the batch, after the copy of lines 291-294. -/
theorem transposePlot_scoop (bufferDevice bufferStagger : Buffer) (noncesWritten i staggerSize : Nat)
    (hS : 0 < staggerSize) (j : Nat) (hj : j < PLOT_SIZE / SCOOP_SIZE) (x : Nat)
    (hx : x < SCOOP_SIZE) :
    transposePlot bufferDevice noncesWritten i staggerSize bufferStagger
        ((noncesWritten + i) % staggerSize * SCOOP_SIZE + j * staggerSize * SCOOP_SIZE + x)
      = bufferDevice (i * PLOT_SIZE + j * SCOOP_SIZE + x) := by
  unfold transposePlot
  have e : j * staggerSize * SCOOP_SIZE = j * SCOOP_SIZE * staggerSize := by ring
  have h0 : (0 : Nat) = 0 * SCOOP_SIZE := by simp
  rw [e]
  conv_lhs => rw [h0]
  exact transposeScoops_scoop bufferDevice _ _ _ hS _ 0 _ (by decide) j (Nat.zero_le _)
    (by omega) x hx

theorem transposePlot_inside (noncesWritten i staggerSize : Nat) (hS : 0 < staggerSize) (j : Nat)
    (hj : j < PLOT_SIZE / SCOOP_SIZE) :
    (noncesWritten + i) % staggerSize * SCOOP_SIZE + j * staggerSize * SCOOP_SIZE + SCOOP_SIZE
      ≤ staggerSize * PLOT_SIZE := by
  have h1 : (noncesWritten + i) % staggerSize < staggerSize := Nat.mod_lt _ hS
  have h2 : j + 1 ≤ 4096 := by
    have : PLOT_SIZE / SCOOP_SIZE = 4096 := by decide
    omega
  have h3 : (j + 1) * staggerSize ≤ 4096 * staggerSize := Nat.mul_le_mul_right _ h2
  have h4 : (j + 1) * staggerSize = j * staggerSize + staggerSize := by ring
  unfold PLOT_SIZE SCOOP_SIZE
  omega

theorem foldl_select_min {α : Type} (comp : α → α → Bool) (hirr : ∀ a, comp a a = false)
    (htr : ∀ a b c, comp a b = true → comp c b = false → comp c a = false)
    (xs : List α) (x : α) (seen : List α) (hseen : ∀ z ∈ seen, comp z x = false) :
    ∀ z ∈ seen ++ xs,
      comp z (xs.foldl (fun smallest y => if comp y smallest then y else smallest) x) = false := by
  induction xs generalizing x seen with
  | nil => simpa using hseen
  | cons y ys ih =>
    intro z hz
    simp only [List.foldl_cons]
    have hz' : z ∈ (seen ++ [y]) ++ ys := by simpa using hz
    refine ih _ (seen ++ [y]) (fun u hu => ?_) z hz'
    rcases List.mem_append.1 hu with hu | hu
    · by_cases hc : comp y x = true
      · rw [if_pos hc]; exact htr y x u hc (hseen u hu)
      · rw [if_neg hc]; exact hseen u hu
    · simp only [List.mem_singleton] at hu
      subst hu
      by_cases hc : comp u x = true
      · rw [if_pos hc]; exact hirr u
      · rw [if_neg hc]; simpa using hc

theorem min_element_min {α : Type} (comp : α → α → Bool) (hirr : ∀ a, comp a a = false)
    (htr : ∀ a b c, comp a b = true → comp c b = false → comp c a = false)
    (l : List α) (a : α) (h : min_element comp l = some a) : ∀ z ∈ l, comp z a = false := by
  cases l with
  | nil => simp [min_element] at h
  | cons x xs =>
    simp only [min_element, Option.some.injEq] at h
    rw [← h]
    intro z hz
    exact foldl_select_min comp hirr htr xs x [x] (by simpa using hirr x) z (by simpa using hz)

theorem compareContexts_eq_false (job : Job nD nC) (s : State nD nC nW) (a b : Fin nC) :
    compareContexts job s a b = false ↔
      (s.contexts b).getPendingNonces ≤ (s.contexts a).getPendingNonces ∧
      ((s.contexts a).getPendingNonces = (s.contexts b).getPendingNonces →
        (s.contexts b).getCurrentDistributedNonce (job.config b)
          ≤ (s.contexts a).getCurrentDistributedNonce (job.config a)) := by
  unfold compareContexts
  split_ifs with h
  · simp only [decide_eq_false_iff_not, not_lt]
    constructor
    · intro hx; exact ⟨by omega, fun _ => hx⟩
    · intro hx; exact hx.2 h
  · simp only [decide_eq_false_iff_not, not_lt]
    constructor
    · intro hx; exact ⟨hx, fun e => absurd e h⟩
    · intro hx; exact hx.1

theorem selectContext_min (job : Job nD nC) (s : State nD nC nW) (c : Fin nC)
    (h : selectContext job s = some c) : ∀ z ∈ s.generationContexts,
      compareContexts job s z c = false := by
  refine min_element_min _ (fun a => ?_) (fun a b x hab hxb => ?_) _ _ h
  · rw [compareContexts_eq_false]; exact ⟨le_refl _, fun _ => le_refl _⟩
  · rw [compareContexts_eq_false] at hxb ⊢
    have hab' : ¬ compareContexts job s a b = false := by simp [hab]
    rw [compareContexts_eq_false] at hab'
    obtain ⟨h1, h2⟩ := hxb
    by_cases hp : (s.contexts b).getPendingNonces ≤ (s.contexts a).getPendingNonces
    · have hq : ¬ ((s.contexts a).getPendingNonces = (s.contexts b).getPendingNonces →
          (s.contexts b).getCurrentDistributedNonce (job.config b)
            ≤ (s.contexts a).getCurrentDistributedNonce (job.config a)) := fun hh => hab' ⟨hp, hh⟩
      have hq' := Classical.not_imp.1 hq
      refine ⟨by omega, fun e => ?_⟩
      have := h2 (by omega)
      omega
    · refine ⟨by omega, fun e => ?_⟩
      omega

theorem reachable_exec {job : Job nD nC} {s s' : State nD nC nW} (ls : List (Label nD nW))
    (hr : Reachable job s) (h : exec job s ls = some s') : Reachable job s' := by
  induction ls generalizing s with
  | nil =>
    simp only [exec, Option.some.injEq] at h
    rw [← h]; exact hr
  | cons l ls ih =>
    simp only [exec] at h
    cases hstep : step job s l with
    | none => rw [hstep] at h; simp at h
    | some s1 =>
      rw [hstep] at h
      exact ih (Reachable.step l hr hstep) h

theorem reachable_stateAfter (job : Job nD nC) (ls : List (Label nD nW)) :
    Reachable job (stateAfter job ls : State nD nC nW) := by
  unfold stateAfter
  cases h : exec job (initialState job) ls with
  | none => exact Reachable.init
  | some s => exact reachable_exec ls Reachable.init h

theorem contiguous_chain {a b : Nat} {l : List (PendingTask nD nC)} (h : Contiguous a l b)
    (hpos : ∀ t ∈ l, 0 < t.workSize) :
    List.Chain' (fun x y : PendingTask nD nC =>
      x.startNonce + x.workSize = y.startNonce ∧ x.startNonce < y.startNonce) l := by
  induction l generalizing a with
  | nil => exact List.chain'_nil
  | cons x xs ih =>
    cases xs with
    | nil => exact List.chain'_singleton x
    | cons y ys =>
      obtain ⟨hx, hy, hrest⟩ := h
      have hxp := hpos x (List.mem_cons_self _ _)
      refine List.Chain'.cons ⟨by omega, by omega⟩ ?_
      exact ih ⟨hy, hrest⟩ (fun t ht => hpos t (List.mem_cons_of_mem _ ht))

/-- C1 (code defect): in the run `scheduleEarlyExit` of one device with global work
size 4 and the file `1_0_8_4`, every step can be taken, `execute` returns 0 with no error
recorded, and yet only 4 of the 8 nonces are written, one stagger of `4 × PLOT_SIZE`
bytes is in the file and the task of the last batch is left in the queue. -/
theorem early_exit_loses_last_batch :
    (exec jobOneFile (initialState jobOneFile) scheduleEarlyExit).map
        (fun s => (s.orchestrator, s.error, (s.contexts 0).noncesWritten,
          (s.contexts 0).plotsFile.size, s.pendingTasks.length,
          (jobOneFile.config 0).noncesNumber))
      = some (Orchestrator.returned 0, false, 4, 4 * PLOT_SIZE, 1, 8) := by
  decide

/-- C2 (code defect): in the run `scheduleSplitStagger` (global work size 2, file
`1_0_4_4`, two writer workers) the one stagger flushed to the file has the plots of
nonces 2 and 3 in place, but the byte at offset 0, where scoop 0 of nonce 0 belongs, is
the fresh memory of the second worker's private stagger buffer. -/
theorem split_stagger_flushes_fresh_memory :
    (exec jobSplitStagger (initialState jobSplitStagger) scheduleSplitStagger).map
        (fun s => ((s.contexts 0).noncesWritten, (s.contexts 0).plotsFile.size,
          (s.contexts 0).plotsFile.data 0,
          (s.contexts 0).plotsFile.data (2 * SCOOP_SIZE),
          (s.contexts 0).plotsFile.data (3 * SCOOP_SIZE)))
      = some (4, 4 * PLOT_SIZE, jobSplitStagger.fresh 0, tagPlot 1 2 0, tagPlot 1 3 0)
    ∧ tagPlot 1 0 0 ≠ jobSplitStagger.fresh 0 := by
  decide!

/-- C3 (code defect): in the run `scheduleLateError` the compute of the last batch
throws after the orchestrator has left its loop; the error is recorded and `execute`
returns 0. -/
theorem late_error_returns_success :
    (exec jobOneFile (initialState jobOneFile) scheduleLateError).map
        (fun s => (s.error, s.orchestrator))
      = some (true, Orchestrator.returned 0) := by
  decide

/-- C4: a writer worker claims a task only when the context of the task is available
and the start nonce of the task is the current written nonce of the context; the
claimed task is then added to the history of claims.  Consequently, in every reachable
state, the tasks claimed for a context follow one another in strictly ascending start
nonce order, each starting where the one before ends, the first at the start nonce of
the file.  (Files hold at least one nonce and devices take at least one nonce.) -/
theorem writes_follow_file_order (job : Job nD nC)
    (hnum : ∀ c, 0 < (job.config c).noncesNumber) (hgws : ∀ d, 0 < job.globalWorkSize d)
    (s : State nD nC nW) (hr : Reachable job s) :
    (∀ w s' d c ws i, step job s (Label.writerClaim w) = some s' →
      (s'.writingThreads w).pc = WriterPc.draining d c ws i →
      ∃ t ∈ s.pendingTasks, t.device = d ∧ t.context = c ∧ t.workSize = ws ∧
        (s.contexts c).available = true ∧
        (s.contexts c).getCurrentWrittenNonce (job.config c) = t.startNonce ∧
        s'.history = s.history ++ [t]) ∧
    ∀ c, List.Chain' (fun x y : PendingTask nD nC =>
        x.startNonce + x.workSize = y.startNonce ∧ x.startNonce < y.startNonce) (claimed s c) ∧
      ∀ t, (claimed s c).head? = some t → t.startNonce = (job.config c).startNonce := by
  refine ⟨fun w s' d c ws i hs hpc' => ?_, fun c => ?_⟩
  · obtain ⟨hpc, ⟨-, rfl⟩ | ⟨he, t, ht, rfl⟩⟩ := writerClaim_cases hs
    · simp at hpc'
    · simp only [Function.update_same, WriterPc.draining.injEq] at hpc'
      obtain ⟨rfl, rfl, rfl, -⟩ := hpc'
      have hready := List.find?_some ht
      simp only [taskReady, Bool.and_eq_true, beq_iff_eq] at hready
      exact ⟨t, List.mem_of_find?_eq_some ht, rfl, rfl, rfl, hready.1, hready.2, rfl⟩
  · have hcount := reachable_countInv hnum hr
    have hwrite := reachable_writeInv hr
    have hpos : ∀ t ∈ claimed s c, 0 < t.workSize := fun t ht =>
      hcount.posHist hgws t (List.mem_of_mem_filter ht)
    obtain ⟨b, hb⟩ := hwrite.chainAny c
    refine ⟨contiguous_chain hb hpos, fun t ht => ?_⟩
    cases hl : claimed s c with
    | nil => rw [hl] at ht; simp at ht
    | cons x xs =>
      rw [hl] at ht hb
      simp only [List.head?_cons, Option.some.injEq] at ht
      subst ht
      exact hb.1

/-- C5: in every reachable state, a context that no writer worker holds (its available
flag is set, or, no error being recorded, no writer worker is between the claim of one
of its tasks and the end of the batch) has `floor(nonces_written / S) × S × PLOT_SIZE`
bytes in its file; and a writer worker that transposes plot `i` of its batch appends
`S × PLOT_SIZE` bytes when `(nonces_written + i) mod S = S − 1` and nothing otherwise.
(Stagger sizes are positive.) -/
theorem sink_size_of_free_context (job : Job nD nC)
    (hS : ∀ c, 0 < (job.config c).staggerSize) (s : State nD nC nW) (hr : Reachable job s)
    (c : Fin nC) :
    ((s.contexts c).available = true ∨
        (s.error = false ∧ ∀ w ws, (s.writingThreads w).pc.batch ≠ some (c, ws)) →
      (s.contexts c).plotsFile.size =
        (s.contexts c).noncesWritten / (job.config c).staggerSize
          * (job.config c).staggerSize * PLOT_SIZE) ∧
    ∀ w ws i s', (s.writingThreads w).pc = WriterPc.transposing c ws i →
      step job s (Label.writerTranspose w true) = some s' →
      (s'.contexts c).plotsFile.size = (s.contexts c).plotsFile.size +
        if ((s.contexts c).noncesWritten + i) % (job.config c).staggerSize
            = (job.config c).staggerSize - 1
        then (job.config c).staggerSize * PLOT_SIZE else 0 := by
  refine ⟨fun hfree => ?_, fun w ws i s' hpc hs => ?_⟩
  · have hav : (s.contexts c).available = true := by
      rcases hfree with hav | ⟨he, hno⟩
      · exact hav
      · cases hx : (s.contexts c).available
        · obtain ⟨w, ws, hb⟩ := (reachable_freeInv hr).busy he c hx
          exact absurd hb (hno w ws)
        · rfl
    exact (reachable_writeInv hr).sinkFree hS c hav
  · obtain ⟨c', ws', i', hpc', -, th, -, -, hcase⟩ := writerTranspose_cases hs
    rw [hpc] at hpc'
    simp only [WriterPc.transposing.injEq] at hpc'
    obtain ⟨rfl, rfl, rfl⟩ := hpc'
    rcases hcase with ⟨hlast, -, rfl⟩ | ⟨-, hok, -⟩ | ⟨hlast, rfl⟩
    · simp only [Function.update_same, PlotsFile.write, if_pos hlast, Nat.mul_comm]
    · exact absurd hok (by simp)
    · simp only [if_neg hlast, Nat.add_zero]

/-- C6: when a writer worker transposes plot `i` of its batch, the `SCOOP_SIZE` bytes
of every scoop `j` of the plot, at offset `i × PLOT_SIZE + j × SCOOP_SIZE` of the drain
buffer, are copied to offset `(n mod S) × SCOOP_SIZE + j × S × SCOOP_SIZE` of the
stagger buffer, where `n = nonces_written + i`, and the destination lies inside
`[0, S × PLOT_SIZE)`. -/
theorem transpose_copies_scoop (job : Job nD nC) (s : State nD nC nW) (w : Fin nW)
    (c : Fin nC) (ws i : Nat) (ok : Bool)
    (hpc : (s.writingThreads w).pc = WriterPc.transposing c ws i) (hi : i < ws)
    (hS : 0 < (job.config c).staggerSize) (j : Nat) (hj : j < PLOT_SIZE / SCOOP_SIZE)
    (x : Nat) (hx : x < SCOOP_SIZE) :
    ∃ s', step job s (Label.writerTranspose w ok) = some s' ∧
      (s'.writingThreads w).bufferStagger
          (((s.contexts c).noncesWritten + i) % (job.config c).staggerSize * SCOOP_SIZE
            + j * (job.config c).staggerSize * SCOOP_SIZE + x)
        = (s.writingThreads w).bufferDevice (i * PLOT_SIZE + j * SCOOP_SIZE + x) ∧
      ((s.contexts c).noncesWritten + i) % (job.config c).staggerSize * SCOOP_SIZE
          + j * (job.config c).staggerSize * SCOOP_SIZE + SCOOP_SIZE
        ≤ (job.config c).staggerSize * PLOT_SIZE := by
  have hsome : ∃ s', step job s (Label.writerTranspose w ok) = some s' := by
    simp only [step, writerTranspose, hpc, hi, if_true]
    split_ifs <;> exact ⟨_, rfl⟩
  obtain ⟨s', hs⟩ := hsome
  refine ⟨s', hs, ?_, transposePlot_inside _ _ _ hS j hj⟩
  obtain ⟨c', ws', i', hpc', -, th, -, hth, hcase⟩ := writerTranspose_cases hs
  rw [hpc] at hpc'
  simp only [WriterPc.transposing.injEq] at hpc'
  obtain ⟨rfl, rfl, rfl⟩ := hpc'
  have key := transposePlot_scoop (s.writingThreads w).bufferDevice
    (s.writingThreads w).bufferStagger (s.contexts c).noncesWritten i
    (job.config c).staggerSize hS j hj x hx
  rcases hcase with ⟨-, -, rfl⟩ | ⟨-, -, rfl⟩ | ⟨-, rfl⟩
  · simp only [Function.update_same, hth]; exact key
  · simp only [writerFail, Function.update_same, hth]; exact key
  · simp only [Function.update_same, hth]; exact key

/-- C7, as amended: the context a compute worker selects has the least pending nonces
of the active contexts, and among the active contexts with as many pending nonces it
has the least current distributed nonce `start_nonce + nonces_distributed`; so it has
the least `nonces_distributed` among those of them with the same `start_nonce`. -/
theorem selected_context_is_minimal (job : Job nD nC) (s s' : State nD nC nW) (d : Fin nD)
    (c : Fin nC) (startNonce workSize : Nat)
    (hs : step job s (Label.computeAcquire d) = some s')
    (hpc : s'.generationThreads d = GenerationThread.computing c startNonce workSize) :
    c ∈ s.generationContexts ∧ ∀ c' ∈ s.generationContexts,
      (s.contexts c).getPendingNonces ≤ (s.contexts c').getPendingNonces ∧
      ((s.contexts c').getPendingNonces = (s.contexts c).getPendingNonces →
        (job.config c).startNonce + (s.contexts c).noncesDistributed
          ≤ (job.config c').startNonce + (s.contexts c').noncesDistributed) ∧
      ((s.contexts c').getPendingNonces = (s.contexts c).getPendingNonces →
        (job.config c').startNonce = (job.config c).startNonce →
        (s.contexts c).noncesDistributed ≤ (s.contexts c').noncesDistributed) := by
  obtain ⟨-, ⟨-, rfl⟩ | ⟨-, -, c0, hsel, rfl⟩⟩ := computeAcquire_cases hs
  · simp at hpc
  · simp only [Function.update_same, GenerationThread.computing.injEq] at hpc
    obtain ⟨rfl, -, -⟩ := hpc
    refine ⟨min_element_mem _ _ _ hsel, fun c' hc' => ?_⟩
    have h := (compareContexts_eq_false job s c' c0).1 (selectContext_min job s c0 hsel c' hc')
    simp only [GenerationContext.getCurrentDistributedNonce] at h
    refine ⟨h.1, h.2, fun e1 e2 => ?_⟩
    have := h.2 e1
    omega

/-- C8: in every reachable state of a job whose files hold at least one nonce, every
context has `nonces_written ≤ nonces_distributed ≤ nonces_number` and is in the list of
active contexts exactly when `nonces_distributed < nonces_number`; and when every device
has a positive global work size, every queued task has a positive work size. -/
theorem counters_ordered_and_active_iff (job : Job nD nC)
    (hnum : ∀ c, 0 < (job.config c).noncesNumber) (s : State nD nC nW)
    (hr : Reachable job s) (c : Fin nC) :
    0 ≤ (s.contexts c).noncesWritten ∧
    (s.contexts c).noncesWritten ≤ (s.contexts c).noncesDistributed ∧
    (s.contexts c).noncesDistributed ≤ (job.config c).noncesNumber ∧
    (c ∈ s.generationContexts ↔
      (s.contexts c).noncesDistributed < (job.config c).noncesNumber) ∧
    ((∀ d, 0 < job.globalWorkSize d) → ∀ t ∈ s.pendingTasks, 0 < t.workSize) := by
  have h := reachable_countInv hnum hr
  exact ⟨Nat.zero_le _, h.wd c, h.dn c, h.act c, fun hp => h.posTask hp⟩

/-- C9: in every reachable state, for every device (which has one compute worker, so one
`computePlots` call at a time): the compute worker starts a `computePlots` call only
when the flag of the device is set; while the flag is set, and
while a `computePlots` call is in flight, no task of the device is in the queue and no
writer worker is reading the device memory; and the flag is set again only by a writer
worker that has read every plot of the batch. -/
theorem compute_waits_for_drain (job : Job nD nC) (s : State nD nC nW)
    (hr : Reachable job s) (d : Fin nD) :
    (∀ s', step job s (Label.computeAcquire d) = some s' →
      (s'.generationThreads d).inFlight = true →
      (s.devices d).available = true ∧ (s.generationThreads d).inFlight = false) ∧
    ((s.devices d).available = true →
      (∀ t ∈ s.pendingTasks, t.device ≠ d) ∧
        ∀ w, (s.writingThreads w).pc.drains d = false) ∧
    ((s.generationThreads d).inFlight = true →
      (∀ t ∈ s.pendingTasks, t.device ≠ d) ∧
        ∀ w, (s.writingThreads w).pc.drains d = false) ∧
    (∀ l s', step job s l = some s' → (s.devices d).available = false →
      (s'.devices d).available = true →
      ∃ w c ws i, l = Label.writerRelease w ∧
        (s.writingThreads w).pc = WriterPc.draining d c ws i ∧ ws ≤ i) := by
  have h := reachable_deviceInv hr
  refine ⟨fun s' hs hfl => ?_, fun hav => (h.avail d hav).2, fun hfl => h.comp d hfl,
    fun l s' hs h0 h1 => ?_⟩
  · obtain ⟨hpc, ⟨-, rfl⟩ | ⟨-, hav, c, -, rfl⟩⟩ := computeAcquire_cases hs
    · simp at hfl
    · exact ⟨hav, by simp [hpc]⟩
  · cases l with
    | computeAcquire d' =>
      obtain ⟨hpc, ⟨-, rfl⟩ | ⟨-, hav, c, -, rfl⟩⟩ := computeAcquire_cases hs
      · rw [h0] at h1; exact absurd h1 (by simp)
      · by_cases hd : d = d'
        · subst hd; simp at h1
        · simp only [Function.update_noteq hd] at h1
          rw [h0] at h1; exact absurd h1 (by simp)
    | computeFinish d' ok =>
      obtain ⟨c, st, ws, hpc, ⟨-, rfl⟩ | ⟨-, rfl⟩⟩ := computeFinish_cases hs
      · by_cases hd : d = d'
        · subst hd
          simp only [Function.update_same, GenerationDevice.computePlots] at h1
          rw [h0] at h1; exact absurd h1 (by simp)
        · simp only [Function.update_noteq hd] at h1
          rw [h0] at h1; exact absurd h1 (by simp)
      · rw [h0] at h1; exact absurd h1 (by simp)
    | writerClaim w =>
      obtain ⟨hpc, ⟨-, rfl⟩ | ⟨-, t, -, rfl⟩⟩ := writerClaim_cases hs
      · rw [h0] at h1; exact absurd h1 (by simp)
      · rw [h0] at h1; exact absurd h1 (by simp)
    | writerRead w ok =>
      obtain ⟨d', c, ws, i, hpc, -, ⟨-, rfl⟩ | ⟨-, rfl⟩⟩ := writerRead_cases hs
      · rw [h0] at h1; exact absurd h1 (by simp)
      · simp only [writerFail] at h1
        rw [h0] at h1; exact absurd h1 (by simp)
    | writerRelease w =>
      obtain ⟨d', c, ws, i, hpc, hi, rfl⟩ := writerRelease_cases hs
      by_cases hd : d = d'
      · subst hd
        exact ⟨w, c, ws, i, rfl, hpc, by omega⟩
      · simp only [Function.update_noteq hd] at h1
        rw [h0] at h1; exact absurd h1 (by simp)
    | writerTranspose w ok =>
      obtain ⟨c, ws, i, hpc, -, th, -, -, ⟨-, -, rfl⟩ | ⟨-, -, rfl⟩ | ⟨-, rfl⟩⟩ :=
        writerTranspose_cases hs
      · rw [h0] at h1; exact absurd h1 (by simp)
      · simp only [writerFail] at h1
        rw [h0] at h1; exact absurd h1 (by simp)
      · rw [h0] at h1; exact absurd h1 (by simp)
    | writerAppend w =>
      obtain ⟨c, ws, i, hpc, -, rfl⟩ := writerAppend_cases hs
      rw [h0] at h1; exact absurd h1 (by simp)
    | orchestratorCheck =>
      obtain ⟨o, rfl⟩ := orchestratorCheck_cases hs
      rw [h0] at h1; exact absurd h1 (by simp)
    | orchestratorJoin =>
      obtain ⟨o, rfl⟩ := orchestratorJoin_cases hs
      rw [h0] at h1; exact absurd h1 (by simp)

/-- C10, as amended: in every reachable state the flag of a device is set only if no
`computePlots` call is in flight on it, no task of it is in the queue and no writer
worker is reading its memory; and as long as no error is recorded the flag is set
exactly then. -/
theorem device_available_iff (job : Job nD nC) (s : State nD nC nW) (hr : Reachable job s)
    (d : Fin nD) :
    ((s.devices d).available = true →
      (s.generationThreads d).inFlight = false ∧ (∀ t ∈ s.pendingTasks, t.device ≠ d) ∧
        ∀ w, (s.writingThreads w).pc.drains d = false) ∧
    (s.error = false →
      ((s.devices d).available = true ↔
        (s.generationThreads d).inFlight = false ∧ (∀ t ∈ s.pendingTasks, t.device ≠ d) ∧
          ∀ w, (s.writingThreads w).pc.drains d = false)) := by
  have h := reachable_deviceInv hr
  refine ⟨h.avail d, fun he => ⟨h.avail d, fun hx => ?_⟩⟩
  cases hav : (s.devices d).available
  · rcases h.busy he d hav with h1 | ⟨t, ht, h2⟩ | ⟨w, h3⟩
    · rw [hx.1] at h1; exact absurd h1 (by simp)
    · exact absurd h2 (hx.2.1 t ht)
    · rw [hx.2.2 w] at h3; exact absurd h3 (by simp)
  · rfl

/-- C4 after the run `scheduleTwoBatches` of `jobOneFile`: the two batches of the
file are claimed in the order of their nonces. -/
theorem writes_follow_file_order_witness :
    claimed (stateAfter jobOneFile scheduleTwoBatches) 0 = [⟨0, 0, 0, 4⟩, ⟨0, 0, 4, 4⟩] ∧
    List.Chain' (fun x y : PendingTask 1 1 =>
        x.startNonce + x.workSize = y.startNonce ∧ x.startNonce < y.startNonce)
      (claimed (stateAfter jobOneFile scheduleTwoBatches) 0) :=
  ⟨by decide,
    ((writes_follow_file_order jobOneFile (by decide) (by decide)
      (stateAfter jobOneFile scheduleTwoBatches) (reachable_stateAfter _ _)).2 0).1⟩

/-- C5 after the run `scheduleOneBatch` of `jobOneFile`: the context is free, 4 nonces
are written and one stagger is in the file. -/
theorem sink_size_of_free_context_witness :
    ((stateAfter jobOneFile scheduleOneBatch).contexts 0).available = true ∧
    ((stateAfter jobOneFile scheduleOneBatch).contexts 0).noncesWritten = 4 ∧
    ((stateAfter jobOneFile scheduleOneBatch).contexts 0).plotsFile.size =
      ((stateAfter jobOneFile scheduleOneBatch).contexts 0).noncesWritten
        / (jobOneFile.config 0).staggerSize * (jobOneFile.config 0).staggerSize * PLOT_SIZE :=
  ⟨by decide, by decide,
    (sink_size_of_free_context jobOneFile (by decide)
      (stateAfter jobOneFile scheduleOneBatch) (reachable_stateAfter _ _) 0).1
      (Or.inl (by decide))⟩

/-- C6 for the first batch of `jobOneFile` (stagger size 4, no nonce written): scoop 0
of nonce 3 lands at `3 × SCOOP_SIZE` and scoop 1 of nonce 0 at `4 × SCOOP_SIZE`. -/
theorem transpose_copies_scoop_witness :
    (∃ s', step jobOneFile (stateAfter jobOneFile scheduleThreePlots)
        (Label.writerTranspose 0 true) = some s' ∧
      (s'.writingThreads 0).bufferStagger (3 * SCOOP_SIZE + 0 * 4 * SCOOP_SIZE + 5)
        = ((stateAfter jobOneFile scheduleThreePlots).writingThreads 0).bufferDevice
            (3 * PLOT_SIZE + 0 * SCOOP_SIZE + 5) ∧
      3 * SCOOP_SIZE + 0 * 4 * SCOOP_SIZE + SCOOP_SIZE ≤ 4 * PLOT_SIZE) ∧
    (∃ s', step jobOneFile (stateAfter jobOneFile scheduleComputing)
        (Label.writerTranspose 0 true) = some s' ∧
      (s'.writingThreads 0).bufferStagger (0 * SCOOP_SIZE + 1 * 4 * SCOOP_SIZE + 5)
        = ((stateAfter jobOneFile scheduleComputing).writingThreads 0).bufferDevice
            (0 * PLOT_SIZE + 1 * SCOOP_SIZE + 5) ∧
      0 * SCOOP_SIZE + 1 * 4 * SCOOP_SIZE + SCOOP_SIZE ≤ 4 * PLOT_SIZE) :=
  ⟨transpose_copies_scoop jobOneFile (stateAfter jobOneFile scheduleThreePlots) 0 0 4 3 true
      (by decide) (by decide) (by decide) 0 (by decide) 5 (by decide),
    transpose_copies_scoop jobOneFile (stateAfter jobOneFile scheduleComputing) 0 0 4 0 true
      (by decide) (by decide) (by decide) 1 (by decide) 5 (by decide)⟩

/-- C7 (counterexample): after the first batch of the file `1_0_8_4` is written, both
files of `jobTwoFiles` are active with 0 pending nonces; the compute worker selects the
file `1_0_8_4`, whose `nonces_distributed` is 4, although the file `2_100_4_4` has
`nonces_distributed` 0. -/
theorem tie_break_ignores_lower_distributed_count :
    (exec jobTwoFiles (initialState jobTwoFiles) scheduleFirstBatch).isSome = true ∧
    selectContext jobTwoFiles (stateAfter jobTwoFiles scheduleFirstBatch) = some 0 ∧
    (step jobTwoFiles (stateAfter jobTwoFiles scheduleFirstBatch)
        (Label.computeAcquire 0)).map (fun s' => s'.generationThreads 0)
      = some (GenerationThread.computing 0 4 4) ∧
    ¬ (∀ c' ∈ (stateAfter jobTwoFiles scheduleFirstBatch).generationContexts,
        ((stateAfter jobTwoFiles scheduleFirstBatch).contexts c').getPendingNonces
            = ((stateAfter jobTwoFiles scheduleFirstBatch).contexts 0).getPendingNonces →
          ((stateAfter jobTwoFiles scheduleFirstBatch).contexts 0).noncesDistributed
            ≤ ((stateAfter jobTwoFiles scheduleFirstBatch).contexts c').noncesDistributed) := by
  decide

/-- After the run `scheduleFirstBatch` of `jobTwoFiles` the compute worker can take a
batch. -/
theorem firstBatch_acquire_enabled :
    (step jobTwoFiles (stateAfter jobTwoFiles scheduleFirstBatch)
      (Label.computeAcquire 0)).isSome = true := by
  decide

/-- C7, as amended, after the run `scheduleFirstBatch` of `jobTwoFiles`: the file
`1_0_8_4` is selected, with current distributed nonce 4 against 100. -/
theorem selected_context_is_minimal_witness :
    ((step jobTwoFiles (stateAfter jobTwoFiles scheduleFirstBatch)
        (Label.computeAcquire 0)).get firstBatch_acquire_enabled).generationThreads 0
      = GenerationThread.computing 0 4 4 ∧
    (0 : Fin 2) ∈ (stateAfter jobTwoFiles scheduleFirstBatch).generationContexts ∧
    ∀ c' ∈ (stateAfter jobTwoFiles scheduleFirstBatch).generationContexts,
      ((stateAfter jobTwoFiles scheduleFirstBatch).contexts 0).getPendingNonces
        ≤ ((stateAfter jobTwoFiles scheduleFirstBatch).contexts c').getPendingNonces ∧
      (((stateAfter jobTwoFiles scheduleFirstBatch).contexts c').getPendingNonces
          = ((stateAfter jobTwoFiles scheduleFirstBatch).contexts 0).getPendingNonces →
        (jobTwoFiles.config 0).startNonce
            + ((stateAfter jobTwoFiles scheduleFirstBatch).contexts 0).noncesDistributed
          ≤ (jobTwoFiles.config c').startNonce
            + ((stateAfter jobTwoFiles scheduleFirstBatch).contexts c').noncesDistributed) ∧
      (((stateAfter jobTwoFiles scheduleFirstBatch).contexts c').getPendingNonces
          = ((stateAfter jobTwoFiles scheduleFirstBatch).contexts 0).getPendingNonces →
        (jobTwoFiles.config c').startNonce = (jobTwoFiles.config 0).startNonce →
        ((stateAfter jobTwoFiles scheduleFirstBatch).contexts 0).noncesDistributed
          ≤ ((stateAfter jobTwoFiles scheduleFirstBatch).contexts c').noncesDistributed) :=
  ⟨by decide,
    selected_context_is_minimal jobTwoFiles (stateAfter jobTwoFiles scheduleFirstBatch)
      ((step jobTwoFiles (stateAfter jobTwoFiles scheduleFirstBatch)
        (Label.computeAcquire 0)).get firstBatch_acquire_enabled) 0 0 4 4
      (Option.some_get firstBatch_acquire_enabled).symm (by decide)⟩

/-- C8 after the run `scheduleMidBatch` of `jobOneFile`: all 8 nonces are distributed,
none is written yet and the context has left the list. -/
theorem counters_ordered_and_active_iff_witness :
    ((stateAfter jobOneFile scheduleMidBatch).contexts 0).noncesWritten = 0 ∧
    ((stateAfter jobOneFile scheduleMidBatch).contexts 0).noncesDistributed = 8 ∧
    ((stateAfter jobOneFile scheduleMidBatch).contexts 0).noncesWritten
      ≤ ((stateAfter jobOneFile scheduleMidBatch).contexts 0).noncesDistributed ∧
    ((stateAfter jobOneFile scheduleMidBatch).contexts 0).noncesDistributed
      ≤ (jobOneFile.config 0).noncesNumber ∧
    ((0 : Fin 1) ∈ (stateAfter jobOneFile scheduleMidBatch).generationContexts ↔
      ((stateAfter jobOneFile scheduleMidBatch).contexts 0).noncesDistributed
        < (jobOneFile.config 0).noncesNumber) ∧
    ∀ t ∈ (stateAfter jobOneFile scheduleMidBatch).pendingTasks, 0 < t.workSize :=
  ⟨by decide, by decide,
    (counters_ordered_and_active_iff jobOneFile (by decide)
      (stateAfter jobOneFile scheduleMidBatch) (reachable_stateAfter _ _) 0).2.1,
    (counters_ordered_and_active_iff jobOneFile (by decide)
      (stateAfter jobOneFile scheduleMidBatch) (reachable_stateAfter _ _) 0).2.2.1,
    (counters_ordered_and_active_iff jobOneFile (by decide)
      (stateAfter jobOneFile scheduleMidBatch) (reachable_stateAfter _ _) 0).2.2.2.1,
    (counters_ordered_and_active_iff jobOneFile (by decide)
      (stateAfter jobOneFile scheduleMidBatch) (reachable_stateAfter _ _) 0).2.2.2.2
      (by decide)⟩

/-- C9 after the run `scheduleComputing` of `jobOneFile`: the compute of the second
batch is in flight, the first batch is out of the queue and read in full. -/
theorem compute_waits_for_drain_witness :
    ((stateAfter jobOneFile scheduleComputing).generationThreads 0).inFlight = true ∧
    (∀ t ∈ (stateAfter jobOneFile scheduleComputing).pendingTasks, t.device ≠ 0) ∧
    ∀ w, ((stateAfter jobOneFile scheduleComputing).writingThreads w).pc.drains 0 = false :=
  ⟨by decide,
    (compute_waits_for_drain jobOneFile (stateAfter jobOneFile scheduleComputing)
      (reachable_stateAfter _ _) 0).2.2.1 (by decide)⟩

/-- C10 (counterexample): once the first batch of `jobOneFile` is computed and queued,
no `computePlots` call is in flight on the device and no writer worker reads its
memory, and yet its flag is not set. -/
theorem queued_batch_keeps_device_unavailable :
    (exec jobOneFile (initialState jobOneFile) scheduleQueued).isSome = true ∧
    ¬ (((stateAfter jobOneFile scheduleQueued).devices 0).available = true ↔
      ((stateAfter jobOneFile scheduleQueued).generationThreads 0).inFlight = false ∧
        ∀ w, ((stateAfter jobOneFile scheduleQueued).writingThreads w).pc.drains 0 = false) := by
  decide

/-- C10, as amended, after the run `scheduleQueued` of `jobOneFile`: no error is
recorded and the flag is cleared, a task of the device being in the queue. -/
theorem device_available_iff_witness :
    (stateAfter jobOneFile scheduleQueued).error = false ∧
    (((stateAfter jobOneFile scheduleQueued).devices 0).available = true ↔
      ((stateAfter jobOneFile scheduleQueued).generationThreads 0).inFlight = false ∧
        (∀ t ∈ (stateAfter jobOneFile scheduleQueued).pendingTasks, t.device ≠ 0) ∧
        ∀ w, ((stateAfter jobOneFile scheduleQueued).writingThreads w).pc.drains 0 = false) :=
  ⟨by decide,
    (device_available_iff jobOneFile (stateAfter jobOneFile scheduleQueued)
      (reachable_stateAfter _ _) 0).2 (by decide)⟩

end Theorems

end GpuPlotGenerator
